import Mathlib

/-!
Verification of the binary-image morphology and constrained flood-fill
engines of the erosion_dilation_morphology repository.

The C++ sources are shallowly embedded:
* `BinaryImage` (src/src/binary_image.{hpp,cpp}) becomes a structure with
  integer dimensions and a total pixel function; `get` returns `false` out
  of bounds and `set` drops out-of-bounds writes, exactly as the C++ does.
* `StructuringElement` / `Morphology` (src/unnamed/part_000, part_001).
  C++ `int` division and remainder truncate toward zero, so they are
  embedded with `Int.tdiv` / `Int.tmod`.
* `FloodFill` (src/src/floodfill.hpp, src/unnamed/part_002): the engine is
  a record of all member fields; `initialize` and `step` are pure state
  transformers and the `std::deque` frontier is a list whose head is the
  deque's front.
-/

namespace EDM

/-- The list of integers `lo, lo+1, …, hi` (empty when `hi < lo`): the
iteration space of a C++ loop `for (int v = lo; v <= hi; ++v)`. -/
def intRange (lo hi : Int) : List Int :=
  (List.range (hi - lo + 1).toNat).map (fun i : Nat => lo + (i : Int))

/-- `BinaryImage` from src/src/binary_image.hpp: `width_`, `height_` and
row-major boolean storage. The storage is embedded as a total function;
`get`/`set` apply the same bounds checks as the C++ member functions, so
out-of-bounds values of `pixels` are unobservable. -/
structure BinaryImage where
  width : Int
  height : Int
  pixels : Int → Int → Bool

/-- `BinaryImage(width, height, fill_value)`: every pixel holds `fill_value`. -/
def BinaryImage.ofFill (width height : Int) (fill_value : Bool) : BinaryImage :=
  { width := width, height := height, pixels := fun _ _ => fill_value }

/-- `BinaryImage::get`: returns `false` (background) for out-of-bounds access. -/
def BinaryImage.get (img : BinaryImage) (x y : Int) : Bool :=
  if 0 ≤ x ∧ x < img.width ∧ 0 ≤ y ∧ y < img.height then img.pixels x y else false

/-- `BinaryImage::set`: writes only when the coordinate is in bounds. -/
def BinaryImage.set (img : BinaryImage) (x y : Int) (value : Bool) : BinaryImage :=
  { img with pixels := fun a b =>
      if (0 ≤ x ∧ x < img.width ∧ 0 ≤ y ∧ y < img.height) ∧ a = x ∧ b = y then value
      else img.pixels a b }

/-- `BoundaryMode` from src/unnamed/part_000. -/
inductive BoundaryMode where
  | Zero
  | One
  | Extend
  | Wrap
deriving DecidableEq

/-- `MorphOperation` from src/unnamed/part_000. -/
inductive MorphOperation where
  | Erosion
  | Dilation
  | InnerBoundary
  | OuterBoundary
  | Gradient
deriving DecidableEq

/-- `StructuringElement` from src/unnamed/part_000. -/
structure StructuringElement where
  width : Int
  height : Int
  center_x : Int
  center_y : Int
  offsets : List (Int × Int)

/-- `StructuringElement::createSquare` (src/unnamed/part_001 lines 4-18):
center `size / 2` with C++ truncating division; the two nested loops run
`dy` (outer) and `dx` (inner) from `-center` to `center`. -/
def StructuringElement.createSquare (size : Int) : StructuringElement :=
  let c := Int.tdiv size 2
  { width := size, height := size, center_x := c, center_y := c,
    offsets := (intRange (-c) c).flatMap (fun dy =>
      (intRange (-c) c).map (fun dx => (dx, dy))) }

/-- `Morphology` (src/unnamed/part_000): a structuring element, an operation
and a boundary mode. -/
structure Morphology where
  se : StructuringElement
  operation : MorphOperation
  boundary : BoundaryMode

/-- `std::clamp(v, lo, hi)`. -/
def clampInt (v lo hi : Int) : Int :=
  if v < lo then lo else if hi < v then hi else v

/-- `Morphology::getPixelWithBoundary` (src/unnamed/part_001 lines 54-82):
in-bounds coordinates read the stored value; out-of-bounds coordinates are
resolved by the boundary mode. `%` in C++ truncates, hence `Int.tmod`. -/
def Morphology.getPixelWithBoundary (m : Morphology) (input : BinaryImage) (x y : Int) : Bool :=
  if 0 ≤ x ∧ x < input.width ∧ 0 ≤ y ∧ y < input.height then
    input.get x y
  else
    match m.boundary with
    | .Zero => false
    | .One => true
    | .Extend =>
        input.get (clampInt x 0 (input.width - 1)) (clampInt y 0 (input.height - 1))
    | .Wrap =>
        input.get (Int.tmod (Int.tmod x input.width + input.width) input.width)
                  (Int.tmod (Int.tmod y input.height + input.height) input.height)

/-- `Morphology::checkErosion` (src/unnamed/part_001 lines 84-92): output is
1 only if all pixels under the structuring element are 1. -/
def Morphology.checkErosion (m : Morphology) (input : BinaryImage) (x y : Int) : Bool :=
  m.se.offsets.all (fun d => m.getPixelWithBoundary input (x + d.1) (y + d.2))

/-- `Morphology::checkDilation` (src/unnamed/part_001 lines 94-102): output
is 1 if any pixel under the structuring element is 1. -/
def Morphology.checkDilation (m : Morphology) (input : BinaryImage) (x y : Int) : Bool :=
  m.se.offsets.any (fun d => m.getPixelWithBoundary input (x + d.1) (y + d.2))

/-- `Morphology::checkPixel` (src/unnamed/part_001 lines 104-132). -/
def Morphology.checkPixel (m : Morphology) (input : BinaryImage) (x y : Int) : Bool :=
  let original := input.get x y
  match m.operation with
  | .Erosion => m.checkErosion input x y
  | .Dilation => m.checkDilation input x y
  | .InnerBoundary => original && !m.checkErosion input x y
  | .OuterBoundary => m.checkDilation input x y && !original
  | .Gradient => m.checkDilation input x y != m.checkErosion input x y

/-- `Morphology::apply` (src/unnamed/part_001 lines 134-144): a fresh
all-background image of the same dimensions, with every in-bounds pixel set
to `checkPixel`. -/
def Morphology.apply (m : Morphology) (input : BinaryImage) : BinaryImage :=
  { width := input.width, height := input.height,
    pixels := fun x y =>
      if 0 ≤ x ∧ x < input.width ∧ 0 ≤ y ∧ y < input.height then
        m.checkPixel input x y
      else false }

/-- `Connectivity` from src/src/floodfill.hpp. -/
inductive Connectivity where
  | Four
  | Eight
deriving DecidableEq

/-- `FillAlgorithm` from src/src/floodfill.hpp. -/
inductive FillAlgorithm where
  | BFS
  | DFS
deriving DecidableEq

/-- `PixelState` from src/src/floodfill.hpp. -/
inductive PixelState where
  | Unvisited
  | InQueue
  | Processed
  | Boundary
  | Unsafe
deriving DecidableEq

/-- `FloodFill::updateOffsets` (src/unnamed/part_002 lines 17-30): the
neighbor offsets N, S, E, W, plus the four diagonals for 8-connectivity. -/
def updateOffsets (connectivity : Connectivity) : List (Int × Int) :=
  let base : List (Int × Int) := [(0, -1), (0, 1), (-1, 0), (1, 0)]
  match connectivity with
  | .Four => base
  | .Eight => base ++ [(-1, -1), (1, -1), (-1, 1), (1, 1)]

/-- `FloodFill::updateDiskOffsets` (src/unnamed/part_002 lines 32-51): all
`(dx, dy)` with `dx² + dy² ≤ r²`, `dy` outer loop, empty for `r ≤ 0`. -/
def updateDiskOffsets (safety_radius : Int) : List (Int × Int) :=
  if safety_radius ≤ 0 then []
  else
    let r := safety_radius
    (intRange (-r) r).flatMap (fun dy =>
      ((intRange (-r) r).filter (fun dx => decide (dx * dx + dy * dy ≤ r * r))).map
        (fun dx => (dx, dy)))

/-- The `FloodFill` engine state: every member field of the C++ class
(src/src/floodfill.hpp lines 87-107). The per-pixel state grid is a total
function written only at in-bounds coordinates, and the frontier list's head
is the deque's front. -/
structure FloodFill where
  connectivity : Connectivity
  algorithm : FillAlgorithm
  safety_radius : Int
  offsets : List (Int × Int)
  disk_offsets : List (Int × Int)
  source : BinaryImage
  result : BinaryImage
  safety_mask : BinaryImage
  state : Int → Int → PixelState
  frontier : List (Int × Int)
  current_pixel : Int × Int
  target_value : Bool
  initialized : Bool
  filled_count : Nat
  unsafe_count : Nat
  width : Int
  height : Int

/-- The `FloodFill` constructor (src/unnamed/part_002 lines 5-15): members
take their declared defaults, the three images start as 1×1 background, and
the offset lists are computed from the configuration. -/
def FloodFill.create (connectivity : Connectivity) (algorithm : FillAlgorithm)
    (safety_radius : Int) : FloodFill :=
  { connectivity := connectivity, algorithm := algorithm, safety_radius := safety_radius,
    offsets := updateOffsets connectivity,
    disk_offsets := updateDiskOffsets safety_radius,
    source := BinaryImage.ofFill 1 1 false,
    result := BinaryImage.ofFill 1 1 false,
    safety_mask := BinaryImage.ofFill 1 1 false,
    state := fun _ _ => PixelState.Unvisited,
    frontier := [], current_pixel := (-1, -1),
    target_value := false, initialized := false,
    filled_count := 0, unsafe_count := 0, width := 0, height := 0 }

/-- `FloodFill::isValid` (src/unnamed/part_002 lines 53-55). -/
def FloodFill.isValid (ff : FloodFill) (x y : Int) : Bool :=
  decide (0 ≤ x) && decide (x < ff.width) && decide (0 ≤ y) && decide (y < ff.height)

/-- `FloodFill::checkCircleFits` (src/unnamed/part_002 lines 57-80): for
`radius ≤ 0` just the pixel itself is checked; otherwise every disk offset
must land in bounds on a pixel equal to `target_value_`. -/
def FloodFill.checkCircleFits (ff : FloodFill) (center_x center_y : Int) : Bool :=
  if ff.safety_radius ≤ 0 then
    ff.isValid center_x center_y && (ff.source.get center_x center_y == ff.target_value)
  else
    ff.disk_offsets.all (fun d =>
      ff.isValid (center_x + d.1) (center_y + d.2) &&
        (ff.source.get (center_x + d.1) (center_y + d.2) == ff.target_value))

/-- `FloodFill::precomputeSafetyMask` (src/unnamed/part_002 lines 92-117):
a fresh mask where every in-bounds pixel equal to `target_value_` is marked,
additionally gated by `checkCircleFits` when the radius is positive. -/
def FloodFill.precomputeSafetyMask (ff : FloodFill) : BinaryImage :=
  { width := ff.width, height := ff.height,
    pixels := fun x y =>
      if ff.safety_radius ≤ 0 then
        ff.source.get x y == ff.target_value
      else
        (ff.source.get x y == ff.target_value) && ff.checkCircleFits x y }

/-- Pointwise update of the state grid: `state_[y][x] = v`. -/
def updS (f : Int → Int → PixelState) (x y : Int) (v : PixelState) :
    Int → Int → PixelState :=
  fun a b => if a = x ∧ b = y then v else f a b

/-- `FloodFill::initialize` (src/unnamed/part_002 lines 119-161). -/
def FloodFill.initFill (ff : FloodFill) (image : BinaryImage) (start_x start_y : Int) :
    FloodFill :=
  let base : FloodFill :=
    { ff with
      width := image.width,
      height := image.height,
      source := image,
      result := BinaryImage.ofFill image.width image.height false,
      state := fun _ _ => PixelState.Unvisited,
      frontier := [],
      filled_count := 0,
      unsafe_count := 0,
      current_pixel := (-1, -1) }
  if base.isValid start_x start_y = false then
    { base with initialized := false }
  else
    let base2 : FloodFill := { base with target_value := image.get start_x start_y }
    let base3 : FloodFill := { base2 with safety_mask := base2.precomputeSafetyMask }
    if base3.safety_mask.get start_x start_y = false then
      { base3 with
        state := updS base3.state start_x start_y PixelState.Unsafe,
        unsafe_count := base3.unsafe_count + 1,
        initialized := true }
    else
      { base3 with
        frontier := [(start_x, start_y)],
        state := updS base3.state start_x start_y PixelState.InQueue,
        initialized := true }

/-- The neighbor examination in the loop body of `FloodFill::step`
(src/unnamed/part_002 lines 188-219): skip out-of-bounds or already-visited
neighbors, mark value mismatches `Boundary`, mark unsafe pixels `Unsafe`,
and enqueue the rest. -/
def FloodFill.processNeighbor (ff : FloodFill) (x y : Int) (d : Int × Int) : FloodFill :=
  let nx := x + d.1
  let ny := y + d.2
  if ff.isValid nx ny = false then ff
  else if ff.state nx ny ≠ PixelState.Unvisited then ff
  else if ff.source.get nx ny ≠ ff.target_value then
    { ff with state := updS ff.state nx ny PixelState.Boundary }
  else if ff.safety_mask.get nx ny = false then
    { ff with
      state := updS ff.state nx ny PixelState.Unsafe,
      unsafe_count := ff.unsafe_count + 1 }
  else
    { ff with
      frontier := ff.frontier ++ [(nx, ny)],
      state := updS ff.state nx ny PixelState.InQueue }

/-- The frontier pop of `FloodFill::step`: BFS takes the deque's front, DFS
its back. -/
def popPixel (algorithm : FillAlgorithm) (f : Int × Int) (rest : List (Int × Int)) :
    (Int × Int) × List (Int × Int) :=
  match algorithm with
  | .BFS => (f, rest)
  | .DFS => ((f :: rest).getLastD f, (f :: rest).dropLast)

/-- The effective body of `FloodFill::step` once a pixel has been popped:
mark it `Processed`, fill it in the result, bump `filled_count`, and examine
all neighbors in offset order. -/
def FloodFill.stepCore (ff : FloodFill) (f : Int × Int) (rest : List (Int × Int)) : FloodFill :=
  let pr := popPixel ff.algorithm f rest
  let x := pr.1.1
  let y := pr.1.2
  let ff1 : FloodFill :=
    { ff with
      frontier := pr.2,
      current_pixel := pr.1,
      state := updS ff.state x y PixelState.Processed,
      result := ff.result.set x y true,
      filled_count := ff.filled_count + 1 }
  ff.offsets.foldl (fun acc d => acc.processNeighbor x y d) ff1

/-- `FloodFill::step` (src/unnamed/part_002 lines 163-222): a no-op
returning `false` when not initialized or the frontier is empty; otherwise
pop a pixel (front for BFS, back for DFS), run the effective body, and
report whether the frontier is still non-empty. -/
def FloodFill.step (ff : FloodFill) : Bool × FloodFill :=
  if ff.initialized = false then (false, ff)
  else
    match ff.frontier with
    | [] => (false, ff)
    | f :: rest =>
      let ff2 := ff.stepCore f rest
      (!ff2.frontier.isEmpty, ff2)

/-- `FloodFill::getState` (src/unnamed/part_002 lines 224-229): `Unvisited`
for out-of-bounds coordinates. -/
def FloodFill.getState (ff : FloodFill) (x y : Int) : PixelState :=
  if ff.isValid x y = true then ff.state x y else PixelState.Unvisited

/-- `FloodFill::isComplete` (src/src/floodfill.hpp line 52). -/
def FloodFill.isComplete (ff : FloodFill) : Bool :=
  ff.frontier.isEmpty && ff.initialized

/-- `n` consecutive calls of `step()`, keeping the final engine state. -/
def FloodFill.runSteps (ff : FloodFill) : Nat → FloodFill
  | 0 => ff
  | n + 1 => (ff.step).2.runSteps n

/-! ### Basic lemmas about the iteration space -/

theorem mem_intRange {lo hi v : Int} : v ∈ intRange lo hi ↔ lo ≤ v ∧ v ≤ hi := by
  unfold intRange
  simp only [List.mem_map, List.mem_range]
  constructor
  · rintro ⟨i, hi', rfl⟩
    omega
  · rintro ⟨h1, h2⟩
    exact ⟨(v - lo).toNat, by omega, by omega⟩

theorem length_intRange (lo hi : Int) : (intRange lo hi).length = (hi - lo + 1).toNat := by
  unfold intRange
  simp

/-! ### C8: the square structuring element -/

/-- C8: for every size `n ≥ 1`, `createSquare(n)` centers at `n/2` (C++
truncating division) and its offsets are exactly the pairs `(dx, dy)` with
`-(n/2) ≤ dx, dy ≤ n/2`, i.e. `(2·(n/2)+1)²` offsets in total. -/
theorem createSquare_spec (n : Int) (hn : 1 ≤ n) :
    (StructuringElement.createSquare n).center_x = Int.tdiv n 2 ∧
    (StructuringElement.createSquare n).center_y = Int.tdiv n 2 ∧
    (∀ d : Int × Int, d ∈ (StructuringElement.createSquare n).offsets ↔
      (-(Int.tdiv n 2) ≤ d.1 ∧ d.1 ≤ Int.tdiv n 2 ∧
       -(Int.tdiv n 2) ≤ d.2 ∧ d.2 ≤ Int.tdiv n 2)) ∧
    ((StructuringElement.createSquare n).offsets.length : Int) =
      (2 * Int.tdiv n 2 + 1) ^ 2 := by
  have hc : 0 ≤ Int.tdiv n 2 := Int.tdiv_nonneg (by omega) (by omega)
  refine ⟨rfl, rfl, ?_, ?_⟩
  · intro d
    unfold StructuringElement.createSquare
    simp only [List.mem_flatMap, List.mem_map]
    constructor
    · rintro ⟨dy, hdy, dx, hdx, rfl⟩
      have h1 := mem_intRange.mp hdy
      have h2 := mem_intRange.mp hdx
      exact ⟨h2.1, h2.2, h1.1, h1.2⟩
    · rintro ⟨h1, h2, h3, h4⟩
      exact ⟨d.2, mem_intRange.mpr ⟨h3, h4⟩, d.1, mem_intRange.mpr ⟨h1, h2⟩, rfl⟩
  · have hconst : ∀ (l : List Int) (k : Nat), (l.map (fun _ => k)).sum = l.length * k := by
      intro l k
      induction l with
      | nil => simp
      | cons a l ih =>
          simp only [List.map_cons, List.sum_cons, ih, List.length_cons]
          ring
    unfold StructuringElement.createSquare
    simp only [List.length_flatMap, List.map_map]
    have h2 : (List.length ∘ fun dy : Int =>
        List.map (fun dx => (dx, dy)) (intRange (-(Int.tdiv n 2)) (Int.tdiv n 2))) =
        (fun _ : Int => (Int.tdiv n 2 - -(Int.tdiv n 2) + 1).toNat) := by
      funext dy
      simp [List.length_map, length_intRange]
    rw [h2, hconst, length_intRange]
    have hK : ((Int.tdiv n 2 - -(Int.tdiv n 2) + 1).toNat : Int) = 2 * Int.tdiv n 2 + 1 := by
      omega
    push_cast [hK]
    ring

/-- Witness for C8 at the claim's own example `n = 4`. -/
theorem createSquare_spec_witness :
    (1 : Int) ≤ 4 ∧
    ((StructuringElement.createSquare 4).center_x = Int.tdiv 4 2 ∧
     (StructuringElement.createSquare 4).center_y = Int.tdiv 4 2 ∧
     (∀ d : Int × Int, d ∈ (StructuringElement.createSquare 4).offsets ↔
       (-(Int.tdiv 4 2) ≤ d.1 ∧ d.1 ≤ Int.tdiv 4 2 ∧
        -(Int.tdiv 4 2) ≤ d.2 ∧ d.2 ≤ Int.tdiv 4 2)) ∧
     ((StructuringElement.createSquare 4).offsets.length : Int) =
       (2 * Int.tdiv 4 2 + 1) ^ 2) :=
  ⟨by decide, createSquare_spec 4 (by decide)⟩

/-! ### Field bookkeeping: `step` never changes the configuration fields -/

theorem isValid_iff (ff : FloodFill) (x y : Int) :
    ff.isValid x y = true ↔ (0 ≤ x ∧ x < ff.width ∧ 0 ≤ y ∧ y < ff.height) := by
  simp [FloodFill.isValid, and_assoc]

/-- The fields of the engine that `step()` leaves untouched. -/
def EqStatic (a b : FloodFill) : Prop :=
  a.width = b.width ∧ a.height = b.height ∧ a.source = b.source ∧
  a.target_value = b.target_value ∧ a.safety_mask = b.safety_mask ∧
  a.offsets = b.offsets ∧ a.disk_offsets = b.disk_offsets ∧
  a.safety_radius = b.safety_radius ∧ a.initialized = b.initialized ∧
  a.algorithm = b.algorithm ∧ a.connectivity = b.connectivity

theorem eqStatic_refl (a : FloodFill) : EqStatic a a :=
  ⟨rfl, rfl, rfl, rfl, rfl, rfl, rfl, rfl, rfl, rfl, rfl⟩

theorem eqStatic_trans {a b c : FloodFill} (h1 : EqStatic a b) (h2 : EqStatic b c) :
    EqStatic a c := by
  obtain ⟨e1, e2, e3, e4, e5, e6, e7, e8, e9, e10, e11⟩ := h1
  obtain ⟨f1, f2, f3, f4, f5, f6, f7, f8, f9, f10, f11⟩ := h2
  exact ⟨e1.trans f1, e2.trans f2, e3.trans f3, e4.trans f4, e5.trans f5, e6.trans f6,
    e7.trans f7, e8.trans f8, e9.trans f9, e10.trans f10, e11.trans f11⟩

theorem processNeighbor_static (ff : FloodFill) (x y : Int) (d : Int × Int) :
    EqStatic (ff.processNeighbor x y d) ff := by
  unfold FloodFill.processNeighbor
  dsimp only
  split_ifs <;> exact ⟨rfl, rfl, rfl, rfl, rfl, rfl, rfl, rfl, rfl, rfl, rfl⟩

theorem foldl_processNeighbor_static (l : List (Int × Int)) (x y : Int) (acc : FloodFill) :
    EqStatic (l.foldl (fun a d => a.processNeighbor x y d) acc) acc := by
  induction l generalizing acc with
  | nil => exact eqStatic_refl acc
  | cons d l ih =>
      exact eqStatic_trans (ih (acc.processNeighbor x y d)) (processNeighbor_static acc x y d)

theorem step_static (ff : FloodFill) : EqStatic (ff.step).2 ff := by
  unfold FloodFill.step
  split_ifs with h
  · exact eqStatic_refl ff
  · cases hf : ff.frontier with
    | nil => exact eqStatic_refl ff
    | cons f rest =>
        refine eqStatic_trans (foldl_processNeighbor_static ff.offsets _ _ _) ?_
        exact ⟨rfl, rfl, rfl, rfl, rfl, rfl, rfl, rfl, rfl, rfl, rfl⟩

theorem runSteps_static (ff : FloodFill) (n : Nat) : EqStatic (ff.runSteps n) ff := by
  induction n generalizing ff with
  | zero => exact eqStatic_refl ff
  | succ n ih =>
      exact eqStatic_trans (ih (ff.step).2) (step_static ff)

/-! ### C9: `checkCircleFits` with a non-positive radius -/

theorem checkCircleFits_of_nonpos (ff : FloodFill) (h : ff.safety_radius ≤ 0) (cx cy : Int) :
    ff.checkCircleFits cx cy = true ↔
      (0 ≤ cx ∧ cx < ff.width ∧ 0 ≤ cy ∧ cy < ff.height ∧
        ff.source.get cx cy = ff.target_value) := by
  unfold FloodFill.checkCircleFits
  rw [if_pos h]
  simp [FloodFill.isValid, and_assoc]

/-- C9: in any fill session (an `initialize` followed by any number of
`step` calls) whose safety radius is `≤ 0`, `checkCircleFits(cx, cy)` holds
exactly when `(cx, cy)` is in bounds and the source pixel there equals the
captured `target_value`. -/
theorem checkCircleFits_radius_nonpos (c : Connectivity) (a : FillAlgorithm) (r : Int)
    (img : BinaryImage) (sx sy : Int) (n : Nat) (hr : r ≤ 0) (cx cy : Int) :
    (((FloodFill.create c a r).initFill img sx sy).runSteps n).checkCircleFits cx cy = true ↔
      (0 ≤ cx ∧ cx < (((FloodFill.create c a r).initFill img sx sy).runSteps n).width ∧
       0 ≤ cy ∧ cy < (((FloodFill.create c a r).initFill img sx sy).runSteps n).height ∧
       (((FloodFill.create c a r).initFill img sx sy).runSteps n).source.get cx cy =
         (((FloodFill.create c a r).initFill img sx sy).runSteps n).target_value) := by
  apply checkCircleFits_of_nonpos
  have hs := (runSteps_static ((FloodFill.create c a r).initFill img sx sy) n).2.2.2.2.2.2.2.1
  rw [hs]
  have : ((FloodFill.create c a r).initFill img sx sy).safety_radius = r := by
    unfold FloodFill.initFill
    dsimp only
    split_ifs <;> rfl
  rw [this]
  exact hr

/-- Witness for C9: a radius-0 session on a 2×2 all-foreground image. -/
theorem checkCircleFits_radius_nonpos_witness :
    (0 : Int) ≤ 0 ∧
    ((((FloodFill.create Connectivity.Four FillAlgorithm.BFS 0).initFill
        (BinaryImage.ofFill 2 2 true) 0 0).runSteps 1).checkCircleFits 1 1 = true ↔
      (0 ≤ (1 : Int) ∧
       (1 : Int) < (((FloodFill.create Connectivity.Four FillAlgorithm.BFS 0).initFill
          (BinaryImage.ofFill 2 2 true) 0 0).runSteps 1).width ∧
       0 ≤ (1 : Int) ∧
       (1 : Int) < (((FloodFill.create Connectivity.Four FillAlgorithm.BFS 0).initFill
          (BinaryImage.ofFill 2 2 true) 0 0).runSteps 1).height ∧
       (((FloodFill.create Connectivity.Four FillAlgorithm.BFS 0).initFill
          (BinaryImage.ofFill 2 2 true) 0 0).runSteps 1).source.get 1 1 =
         (((FloodFill.create Connectivity.Four FillAlgorithm.BFS 0).initFill
            (BinaryImage.ofFill 2 2 true) 0 0).runSteps 1).target_value)) :=
  ⟨le_refl 0,
   checkCircleFits_radius_nonpos Connectivity.Four FillAlgorithm.BFS 0
     (BinaryImage.ofFill 2 2 true) 0 0 1 (le_refl 0) 1 1⟩

/-! ### C10: `getState` out of bounds -/

/-- C10: at any point in the engine's lifetime, `getState(x, y)` returns
`Unvisited` for every out-of-bounds coordinate. The statement quantifies
over every engine value, so it covers the state before the first
`initialize`, after a failed `initialize`, and after any number of steps. -/
theorem getState_out_of_bounds (ff : FloodFill) (x y : Int)
    (h : ¬ (0 ≤ x ∧ x < ff.width ∧ 0 ≤ y ∧ y < ff.height)) :
    ff.getState x y = PixelState.Unvisited := by
  unfold FloodFill.getState
  rw [if_neg]
  rw [isValid_iff]
  exact h

/-- Witness for C10: a freshly constructed engine probed at `(-1, 0)`. -/
theorem getState_out_of_bounds_witness :
    (¬ ((0 : Int) ≤ -1 ∧ (-1 : Int) < (FloodFill.create Connectivity.Four FillAlgorithm.BFS 0).width ∧
        (0 : Int) ≤ 0 ∧ (0 : Int) < (FloodFill.create Connectivity.Four FillAlgorithm.BFS 0).height)) ∧
    (FloodFill.create Connectivity.Four FillAlgorithm.BFS 0).getState (-1) 0 =
      PixelState.Unvisited :=
  ⟨by decide, getState_out_of_bounds _ (-1) 0 (by decide)⟩

/-! ### C2: Gradient versus InnerBoundary ∪ OuterBoundary -/

/-- A 1×1 all-foreground image. -/
def cexImg1 : BinaryImage := BinaryImage.ofFill 1 1 true

/-- A structuring element whose only offset is `(1, 0)`: it does not cover
its own center. -/
def cexSE1 : StructuringElement :=
  { width := 1, height := 1, center_x := 0, center_y := 0, offsets := [(1, 0)] }

/-- C2 counterexample: with the structuring element `{(1,0)}` (no `(0,0)`
offset), Zero boundary, on a 1×1 foreground image, the in-bounds pixel
`(0,0)` has `Gradient = false` but `InnerBoundary OR OuterBoundary = true`,
so `Gradient(A) = InnerBoundary(A) ∪ OuterBoundary(A)` fails for this grid,
structuring element and boundary mode. -/
theorem gradient_union_cex :
    (0 : Int) ≤ 0 ∧ (0 : Int) < cexImg1.width ∧
    ((Morphology.mk cexSE1 MorphOperation.Gradient BoundaryMode.Zero).apply cexImg1).get 0 0
      = false ∧
    (((Morphology.mk cexSE1 MorphOperation.InnerBoundary BoundaryMode.Zero).apply cexImg1).get 0 0 ||
     ((Morphology.mk cexSE1 MorphOperation.OuterBoundary BoundaryMode.Zero).apply cexImg1).get 0 0)
      = true := by decide

/-- C2 amended: for every grid, every boundary mode and every structuring
element **whose offsets contain `(0, 0)`**, the Gradient output equals the
pixelwise OR of the InnerBoundary and OuterBoundary outputs at every
in-bounds coordinate. (The original claim quantified over all structuring
elements; `gradient_union_cex` shows the `(0,0)` offset is needed.) -/
theorem gradient_eq_inner_union_outer (img : BinaryImage) (se : StructuringElement)
    (bm : BoundaryMode) (hmem : ((0 : Int), (0 : Int)) ∈ se.offsets) (x y : Int)
    (hx0 : 0 ≤ x) (hx1 : x < img.width) (hy0 : 0 ≤ y) (hy1 : y < img.height) :
    ((Morphology.mk se MorphOperation.Gradient bm).apply img).get x y =
      (((Morphology.mk se MorphOperation.InnerBoundary bm).apply img).get x y ||
       ((Morphology.mk se MorphOperation.OuterBoundary bm).apply img).get x y) := by
  have hb : 0 ≤ x ∧ x < img.width ∧ 0 ≤ y ∧ y < img.height := ⟨hx0, hx1, hy0, hy1⟩
  have he : ∀ op, (Morphology.mk se op bm).checkErosion img x y = true → img.get x y = true := by
    intro op h
    have h2 := List.all_eq_true.mp h _ hmem
    simpa [Morphology.getPixelWithBoundary, hb] using h2
  have hd : ∀ op, img.get x y = true → (Morphology.mk se op bm).checkDilation img x y = true := by
    intro op h
    apply List.any_eq_true.mpr
    refine ⟨((0 : Int), (0 : Int)), hmem, ?_⟩
    simpa [Morphology.getPixelWithBoundary, hb] using h
  have happly : ∀ op, ((Morphology.mk se op bm).apply img).get x y =
      (Morphology.mk se op bm).checkPixel img x y := by
    intro op
    simp only [Morphology.apply, BinaryImage.get]
    rw [if_pos hb, if_pos hb]
  rw [happly, happly, happly]
  simp only [Morphology.checkPixel]
  rw [show (Morphology.mk se MorphOperation.InnerBoundary bm).checkErosion img x y =
      (Morphology.mk se MorphOperation.Gradient bm).checkErosion img x y from rfl,
    show (Morphology.mk se MorphOperation.OuterBoundary bm).checkDilation img x y =
      (Morphology.mk se MorphOperation.Gradient bm).checkDilation img x y from rfl]
  have heg := he MorphOperation.Gradient
  have hdg := hd MorphOperation.Gradient
  cases ho : img.get x y <;>
    cases hE : (Morphology.mk se MorphOperation.Gradient bm).checkErosion img x y <;>
    cases hD : (Morphology.mk se MorphOperation.Gradient bm).checkDilation img x y <;>
    simp_all

/-- Witness for the amended C2: the 3×3 square element (which contains
`(0,0)`) on a 1×1 image at the in-bounds pixel `(0,0)`. -/
theorem gradient_eq_inner_union_outer_witness :
    ((0 : Int), (0 : Int)) ∈ (StructuringElement.createSquare 3).offsets ∧
    ((Morphology.mk (StructuringElement.createSquare 3) MorphOperation.Gradient
        BoundaryMode.Zero).apply cexImg1).get 0 0 =
      (((Morphology.mk (StructuringElement.createSquare 3) MorphOperation.InnerBoundary
          BoundaryMode.Zero).apply cexImg1).get 0 0 ||
       ((Morphology.mk (StructuringElement.createSquare 3) MorphOperation.OuterBoundary
          BoundaryMode.Zero).apply cexImg1).get 0 0) :=
  ⟨by decide, gradient_eq_inner_union_outer cexImg1 (StructuringElement.createSquare 3)
    BoundaryMode.Zero (by decide) 0 0 (by decide) (by decide) (by decide) (by decide)⟩

/-! ### C5: Extend/Wrap on all-foreground grids -/

/-- All in-bounds pixels are foreground. -/
def allForeground (img : BinaryImage) : Prop :=
  ∀ x y : Int, 0 ≤ x → x < img.width → 0 ≤ y → y < img.height → img.get x y = true

theorem allForeground_ofFill (w h : Int) : allForeground (BinaryImage.ofFill w h true) := by
  intro x y hx0 hx1 hy0 hy1
  unfold BinaryImage.ofFill BinaryImage.get
  rw [if_pos ⟨hx0, hx1, hy0, hy1⟩]

/-- C++ `%` (truncating remainder) by a positive modulus exceeds the
negated modulus. -/
theorem tmod_gt_neg (x w : Int) (hw : 0 < w) : -w < x.tmod w := by
  cases x with
  | ofNat m =>
      have h := Int.tmod_nonneg w (show (0 : Int) ≤ Int.ofNat m from Int.ofNat_nonneg m)
      omega
  | negSucc m =>
      obtain ⟨n, rfl⟩ : ∃ k : Nat, w = (k : Int) :=
        ⟨w.toNat, (Int.toNat_of_nonneg (le_of_lt hw)).symm⟩
      have heq : Int.tmod (Int.negSucc m) (n : Int) = -((((m : Int) + 1)) % (n : Int)) := by
        simp [Int.tmod]
      have h2 : (((m : Int) + 1)) % (n : Int) < (n : Int) := Int.emod_lt_of_pos _ (by omega)
      omega

theorem clampInt_mem (v lo hi : Int) (h : lo ≤ hi) :
    lo ≤ clampInt v lo hi ∧ clampInt v lo hi ≤ hi := by
  unfold clampInt
  split_ifs <;> omega

/-- Under `Extend` or `Wrap`, every probe of an all-foreground non-empty
grid resolves to an in-bounds pixel and hence reads foreground. -/
theorem getPixelWithBoundary_allFG (se : StructuringElement) (op : MorphOperation)
    (bm : BoundaryMode) (hbm : bm = BoundaryMode.Extend ∨ bm = BoundaryMode.Wrap)
    (img : BinaryImage) (hfg : allForeground img) (hw : 0 < img.width) (hh : 0 < img.height)
    (a b : Int) : (Morphology.mk se op bm).getPixelWithBoundary img a b = true := by
  unfold Morphology.getPixelWithBoundary
  split_ifs with h
  · exact hfg a b h.1 h.2.1 h.2.2.1 h.2.2.2
  · rcases hbm with rfl | rfl
    · have hx := clampInt_mem a 0 (img.width - 1) (by omega)
      have hy := clampInt_mem b 0 (img.height - 1) (by omega)
      exact hfg _ _ hx.1 (by omega) hy.1 (by omega)
    · have hxl := tmod_gt_neg a img.width hw
      have hyl := tmod_gt_neg b img.height hh
      have hx0 : 0 ≤ Int.tmod (Int.tmod a img.width + img.width) img.width :=
        Int.tmod_nonneg _ (by omega)
      have hx1 : Int.tmod (Int.tmod a img.width + img.width) img.width < img.width :=
        Int.tmod_lt_of_pos _ hw
      have hy0 : 0 ≤ Int.tmod (Int.tmod b img.height + img.height) img.height :=
        Int.tmod_nonneg _ (by omega)
      have hy1 : Int.tmod (Int.tmod b img.height + img.height) img.height < img.height :=
        Int.tmod_lt_of_pos _ hh
      exact hfg _ _ hx0 hx1 hy0 hy1

/-- C5 amended: for every all-foreground grid and every structuring element
**with a non-empty offset list**, Erosion and Dilation under `Extend` or
`Wrap` yield an all-foreground grid. (The original claim quantified over
all structuring elements; `erode_dilate_allForeground_cex` shows an empty
offset list breaks Dilation.) -/
theorem erode_dilate_allForeground (img : BinaryImage) (se : StructuringElement)
    (op : MorphOperation) (bm : BoundaryMode) (hne : se.offsets ≠ [])
    (hop : op = MorphOperation.Erosion ∨ op = MorphOperation.Dilation)
    (hbm : bm = BoundaryMode.Extend ∨ bm = BoundaryMode.Wrap)
    (hfg : allForeground img) :
    allForeground ((Morphology.mk se op bm).apply img) := by
  intro x y hx0 hx1 hy0 hy1
  have hxw : x < img.width := hx1
  have hyh : y < img.height := hy1
  have hb : 0 ≤ x ∧ x < img.width ∧ 0 ≤ y ∧ y < img.height := ⟨hx0, hxw, hy0, hyh⟩
  have hw : 0 < img.width := by omega
  have hh : 0 < img.height := by omega
  show ((Morphology.mk se op bm).apply img).get x y = true
  have happly : ((Morphology.mk se op bm).apply img).get x y =
      (Morphology.mk se op bm).checkPixel img x y := by
    simp only [Morphology.apply, BinaryImage.get]
    rw [if_pos hb, if_pos hb]
  rw [happly]
  have hprobe := getPixelWithBoundary_allFG se op bm hbm img hfg hw hh
  rcases hop with rfl | rfl
  · simp only [Morphology.checkPixel, Morphology.checkErosion]
    apply List.all_eq_true.mpr
    intro d _
    exact hprobe (x + d.1) (y + d.2)
  · simp only [Morphology.checkPixel, Morphology.checkDilation]
    apply List.any_eq_true.mpr
    obtain ⟨d, hd⟩ := List.exists_mem_of_ne_nil _ hne
    exact ⟨d, hd, hprobe (x + d.1) (y + d.2)⟩

/-- C5 counterexample: `createSquare(-2)` is a structuring element the code
itself builds whose offset list is empty; dilating the all-foreground 1×1
image with it under `Extend` yields background at the in-bounds pixel
`(0,0)`, so the output is not all-foreground. -/
theorem erode_dilate_allForeground_cex :
    allForeground cexImg1 ∧
    ¬ allForeground ((Morphology.mk (StructuringElement.createSquare (-2))
        MorphOperation.Dilation BoundaryMode.Extend).apply cexImg1) := by
  constructor
  · exact allForeground_ofFill 1 1
  · intro h
    have h2 := h 0 0 (by decide) (by decide) (by decide) (by decide)
    exact absurd h2 (by decide)

/-- Witness for the amended C5: the 3×3 square element under `Wrap` keeps a
2×2 all-foreground grid all-foreground. -/
theorem erode_dilate_allForeground_witness :
    (StructuringElement.createSquare 3).offsets ≠ [] ∧
    allForeground (BinaryImage.ofFill 2 2 true) ∧
    allForeground ((Morphology.mk (StructuringElement.createSquare 3) MorphOperation.Erosion
      BoundaryMode.Wrap).apply (BinaryImage.ofFill 2 2 true)) :=
  ⟨by decide, allForeground_ofFill 2 2,
   erode_dilate_allForeground (BinaryImage.ofFill 2 2 true) (StructuringElement.createSquare 3)
     MorphOperation.Erosion BoundaryMode.Wrap (by decide) (Or.inl rfl) (Or.inr rfl)
     (allForeground_ofFill 2 2)⟩

/-! ### C6: out-of-bounds seed makes the engine inert -/

theorem isValid_eq_false_iff (ff : FloodFill) (x y : Int) :
    ff.isValid x y = false ↔ ¬ (0 ≤ x ∧ x < ff.width ∧ 0 ≤ y ∧ y < ff.height) := by
  rw [← isValid_iff]
  cases ff.isValid x y <;> simp

theorem step_not_initialized (ff : FloodFill) (h : ff.initialized = false) :
    ff.step = (false, ff) := by
  unfold FloodFill.step
  rw [h, if_pos rfl]

theorem initFill_invalid_seed (ff : FloodFill) (img : BinaryImage) (sx sy : Int)
    (h : ¬ (0 ≤ sx ∧ sx < img.width ∧ 0 ≤ sy ∧ sy < img.height)) :
    (ff.initFill img sx sy).initialized = false := by
  unfold FloodFill.initFill
  dsimp only
  rw [if_pos ((isValid_eq_false_iff _ sx sy).mpr h)]

theorem runSteps_not_initialized (ff : FloodFill) (h : ff.initialized = false) (n : Nat) :
    ff.runSteps n = ff := by
  induction n with
  | zero => rfl
  | succ n ih =>
      show (ff.step).2.runSteps n = ff
      rw [step_not_initialized ff h]
      exact ih

/-- C6: initializing with an out-of-bounds seed marks the engine
not-initialized, and every subsequent `step()` is a no-op that returns
`false` and leaves the whole engine state — result grid, state grid,
counters and frontier included — unchanged (the iterates are equal as
values), until `initialize` is called again. -/
theorem invalid_seed_inert (c : Connectivity) (a : FillAlgorithm) (r : Int)
    (img : BinaryImage) (sx sy : Int)
    (h : ¬ (0 ≤ sx ∧ sx < img.width ∧ 0 ≤ sy ∧ sy < img.height)) :
    ((FloodFill.create c a r).initFill img sx sy).initialized = false ∧
    (∀ n : Nat, ((FloodFill.create c a r).initFill img sx sy).runSteps n =
      (FloodFill.create c a r).initFill img sx sy) ∧
    (((FloodFill.create c a r).initFill img sx sy).step).1 = false ∧
    (((FloodFill.create c a r).initFill img sx sy).step).2 =
      (FloodFill.create c a r).initFill img sx sy := by
  have hinit := initFill_invalid_seed (FloodFill.create c a r) img sx sy h
  refine ⟨hinit, fun n => runSteps_not_initialized _ hinit n, ?_, ?_⟩
  · rw [step_not_initialized _ hinit]
  · rw [step_not_initialized _ hinit]

/-- Witness for C6: seed `(5, 0)` is outside a 2×2 image. -/
theorem invalid_seed_inert_witness :
    (¬ ((0 : Int) ≤ 5 ∧ (5 : Int) < (BinaryImage.ofFill 2 2 false).width ∧
        (0 : Int) ≤ 0 ∧ (0 : Int) < (BinaryImage.ofFill 2 2 false).height)) ∧
    ((FloodFill.create Connectivity.Four FillAlgorithm.BFS 0).initFill
      (BinaryImage.ofFill 2 2 false) 5 0).initialized = false ∧
    (((FloodFill.create Connectivity.Four FillAlgorithm.BFS 0).initFill
      (BinaryImage.ofFill 2 2 false) 5 0).runSteps 3 =
      (FloodFill.create Connectivity.Four FillAlgorithm.BFS 0).initFill
        (BinaryImage.ofFill 2 2 false) 5 0) ∧
    (((FloodFill.create Connectivity.Four FillAlgorithm.BFS 0).initFill
      (BinaryImage.ofFill 2 2 false) 5 0).step).1 = false := by
  have h := invalid_seed_inert Connectivity.Four FillAlgorithm.BFS 0
    (BinaryImage.ofFill 2 2 false) 5 0 (by decide)
  exact ⟨by decide, h.1, h.2.1 3, h.2.2.1⟩

/-! ### C1: the 5×5 all-foreground scenario with safety radius 1 -/

/-- The 5×5 all-foreground grid of the scenario. -/
def img5 : BinaryImage := BinaryImage.ofFill 5 5 true

/-- The scenario's engine run to completion: radius 1, 4-connectivity, BFS,
seeded at the center `(2, 2)`; 25 steps are more than the 9 effective ones,
and steps after completion are no-ops. -/
def ffC1 : FloodFill :=
  ((FloodFill.create Connectivity.Four FillAlgorithm.BFS 1).initFill img5 2 2).runSteps 25

/-- C1 counterexample: in the completed 5×5 scenario the corner pixel
`(0, 0)` of the outermost ring is `Unvisited`, not `Unsafe` (no processed
interior pixel is 4-adjacent to a corner), and `unsafe_count` is 12, not
16. -/
theorem flood_scenario_cex :
    ffC1.getState 0 0 = PixelState.Unvisited ∧ ffC1.unsafe_count = 12 := by decide

/-- C1 amended: in the completed scenario the inner 3×3 block is
`Processed`, the outermost ring is `Unsafe` **except its four corners,
which stay `Unvisited`**, `filled_count = 9` and `unsafe_count = 12` (not
16), and the fill is complete. -/
theorem flood_scenario_amended :
    (∀ x ∈ intRange 0 4, ∀ y ∈ intRange 0 4,
      ffC1.getState x y =
        (if 1 ≤ x ∧ x ≤ 3 ∧ 1 ≤ y ∧ y ≤ 3 then PixelState.Processed
         else if (x = 0 ∨ x = 4) ∧ (y = 0 ∨ y = 4) then PixelState.Unvisited
         else PixelState.Unsafe)) ∧
    ffC1.filled_count = 9 ∧ ffC1.unsafe_count = 12 ∧ ffC1.isComplete = true := by decide

/-! ### Helper lemmas: state updates, result writes, frontier pops -/

theorem updS_self (f : Int → Int → PixelState) (x y : Int) (v : PixelState) :
    updS f x y v x y = v := by
  simp [updS]

theorem updS_ne (f : Int → Int → PixelState) (x y : Int) (v : PixelState) (a b : Int)
    (h : ¬ (a = x ∧ b = y)) : updS f x y v a b = f a b := by
  simp only [updS, if_neg h]

theorem get_set_self (img : BinaryImage) (x y : Int) (v : Bool)
    (h : 0 ≤ x ∧ x < img.width ∧ 0 ≤ y ∧ y < img.height) :
    (img.set x y v).get x y = v := by
  unfold BinaryImage.set BinaryImage.get
  dsimp only
  rw [if_pos h, if_pos ⟨h, rfl, rfl⟩]

theorem get_set_ne (img : BinaryImage) (x y : Int) (v : Bool) (a b : Int)
    (h : ¬ (a = x ∧ b = y)) : (img.set x y v).get a b = img.get a b := by
  unfold BinaryImage.set BinaryImage.get
  dsimp only
  rw [if_neg (show ¬ ((0 ≤ x ∧ x < img.width ∧ 0 ≤ y ∧ y < img.height) ∧ a = x ∧ b = y)
    from fun hc => h hc.2)]

theorem popPixel_mem (alg : FillAlgorithm) (f : Int × Int) (rest : List (Int × Int)) :
    (popPixel alg f rest).1 ∈ f :: rest := by
  cases alg with
  | BFS => exact List.mem_cons_self f rest
  | DFS =>
      show (f :: rest).getLastD f ∈ f :: rest
      rw [List.getLastD_eq_getLast? , List.getLast?_eq_getLast (f :: rest) (by simp)]
      simp only [Option.getD_some]
      exact List.getLast_mem _

theorem popPixel_parts (alg : FillAlgorithm) (f : Int × Int) (rest : List (Int × Int))
    (hnd : (f :: rest).Nodup) :
    (popPixel alg f rest).1 ∉ (popPixel alg f rest).2 ∧
    (popPixel alg f rest).2.Nodup ∧
    (∀ q, q ∈ (popPixel alg f rest).2 ↔ (q ∈ f :: rest ∧ q ≠ (popPixel alg f rest).1)) := by
  cases alg with
  | BFS =>
      simp only [popPixel]
      have hni : f ∉ rest := (List.nodup_cons.mp hnd).1
      refine ⟨hni, (List.nodup_cons.mp hnd).2, fun q => ?_⟩
      constructor
      · intro hq
        exact ⟨List.mem_cons_of_mem f hq, fun he => hni (he ▸ hq)⟩
      · rintro ⟨hq, hne⟩
        cases List.mem_cons.mp hq with
        | inl h => exact absurd h hne
        | inr h => exact h
  | DFS =>
      simp only [popPixel]
      have hne : f :: rest ≠ [] := by simp
      have hlast : (f :: rest).getLastD f = (f :: rest).getLast hne := by
        rw [List.getLastD_eq_getLast? , List.getLast?_eq_getLast (f :: rest) hne]
        rfl
      rw [hlast]
      have hsplit : (f :: rest).dropLast ++ [(f :: rest).getLast hne] = f :: rest :=
        List.dropLast_append_getLast hne
      have hnd2 : ((f :: rest).dropLast ++ [(f :: rest).getLast hne]).Nodup := by
        rw [hsplit]; exact hnd
      have hdisj := List.disjoint_of_nodup_append hnd2
      have hnotin : (f :: rest).getLast hne ∉ (f :: rest).dropLast := by
        intro hmem
        exact hdisj hmem (by simp)
      refine ⟨hnotin, (List.nodup_append.mp hnd2).1, fun q => ?_⟩
      constructor
      · intro hq
        constructor
        · rw [← hsplit]
          exact List.mem_append_left _ hq
        · intro he
          exact hnotin (he ▸ hq)
      · rintro ⟨hq, hqne⟩
        rw [← hsplit] at hq
        cases List.mem_append.mp hq with
        | inl h => exact h
        | inr h =>
            simp only [List.mem_singleton] at h
            exact absurd h hqne

theorem step_eq_core (ff : FloodFill) (hinit : ff.initialized = true) {f : Int × Int}
    {rest : List (Int × Int)} (hf : ff.frontier = f :: rest) :
    ff.step = (!(ff.stepCore f rest).frontier.isEmpty, ff.stepCore f rest) := by
  unfold FloodFill.step
  rw [hinit, if_neg (by simp), hf]

/-! ### The in-bounds pixel square and state counting -/

/-- The finite set of in-bounds coordinates of the engine's grid. -/
def validSquare (ff : FloodFill) : Finset (Int × Int) :=
  Finset.Ico 0 ff.width ×ˢ Finset.Ico 0 ff.height

theorem mem_validSquare (ff : FloodFill) (p : Int × Int) :
    p ∈ validSquare ff ↔ (0 ≤ p.1 ∧ p.1 < ff.width ∧ 0 ≤ p.2 ∧ p.2 < ff.height) := by
  unfold validSquare
  rw [Finset.mem_product, Finset.mem_Ico, Finset.mem_Ico]
  tauto

theorem card_filter_updS_hit (s : Finset (Int × Int)) (f : Int → Int → PixelState)
    (x y : Int) (v st : PixelState) (hx : (x, y) ∈ s) (hold : f x y ≠ st) (hnew : v = st) :
    ((s.filter (fun p => updS f x y v p.1 p.2 = st)).card) =
      ((s.filter (fun p => f p.1 p.2 = st)).card) + 1 := by
  have hins : s.filter (fun p => updS f x y v p.1 p.2 = st) =
      insert (x, y) (s.filter (fun p => f p.1 p.2 = st)) := by
    ext p
    simp only [Finset.mem_filter, Finset.mem_insert]
    constructor
    · rintro ⟨hp, hv⟩
      by_cases hc : p.1 = x ∧ p.2 = y
      · left
        exact Prod.ext hc.1 hc.2
      · right
        rw [updS_ne _ _ _ _ _ _ hc] at hv
        exact ⟨hp, hv⟩
    · rintro (rfl | ⟨hp, hv⟩)
      · exact ⟨hx, by rw [updS_self]; exact hnew⟩
      · by_cases hc : p.1 = x ∧ p.2 = y
        · exact absurd (show f x y = st from hc.1 ▸ hc.2 ▸ hv) hold
        · exact ⟨hp, by rw [updS_ne _ _ _ _ _ _ hc]; exact hv⟩
  rw [hins, Finset.card_insert_of_not_mem]
  simp only [Finset.mem_filter, not_and]
  intro _
  exact hold

theorem card_filter_updS_miss (s : Finset (Int × Int)) (f : Int → Int → PixelState)
    (x y : Int) (v st : PixelState) (hold : f x y ≠ st) (hnew : v ≠ st) :
    ((s.filter (fun p => updS f x y v p.1 p.2 = st)).card) =
      ((s.filter (fun p => f p.1 p.2 = st)).card) := by
  congr 1
  apply Finset.filter_congr
  intro p _
  by_cases hc : p.1 = x ∧ p.2 = y
  · obtain ⟨h1, h2⟩ := hc
    rw [h1, h2, updS_self]
    exact iff_of_false hnew hold
  · rw [updS_ne _ _ _ _ _ _ hc]

theorem bool_ne_false {b : Bool} (h : ¬ (b = false)) : b = true := by
  cases b
  · exact absurd rfl h
  · rfl

/-- Exhaustive branch description of one neighbor examination. -/
theorem processNeighbor_spec (ff : FloodFill) (x y : Int) (d : Int × Int) :
    (ff.processNeighbor x y d = ff ∧
       (ff.isValid (x + d.1) (y + d.2) = false ∨
        ff.state (x + d.1) (y + d.2) ≠ PixelState.Unvisited)) ∨
    (ff.isValid (x + d.1) (y + d.2) = true ∧
     ff.state (x + d.1) (y + d.2) = PixelState.Unvisited ∧
      ((ff.source.get (x + d.1) (y + d.2) ≠ ff.target_value ∧
        ff.processNeighbor x y d =
          { ff with state := updS ff.state (x + d.1) (y + d.2) PixelState.Boundary }) ∨
       (ff.source.get (x + d.1) (y + d.2) = ff.target_value ∧
        ff.safety_mask.get (x + d.1) (y + d.2) = false ∧
        ff.processNeighbor x y d = { ff with
          state := updS ff.state (x + d.1) (y + d.2) PixelState.Unsafe,
          unsafe_count := ff.unsafe_count + 1 }) ∨
       (ff.source.get (x + d.1) (y + d.2) = ff.target_value ∧
        ff.safety_mask.get (x + d.1) (y + d.2) = true ∧
        ff.processNeighbor x y d = { ff with
          frontier := ff.frontier ++ [(x + d.1, y + d.2)],
          state := updS ff.state (x + d.1) (y + d.2) PixelState.InQueue }))) := by
  unfold FloodFill.processNeighbor
  dsimp only
  split_ifs with h1 h2 h3 h4
  · exact Or.inl ⟨rfl, Or.inl h1⟩
  · exact Or.inl ⟨rfl, Or.inr h2⟩
  · exact Or.inr ⟨bool_ne_false h1, not_not.mp h2, Or.inl ⟨h3, rfl⟩⟩
  · exact Or.inr ⟨bool_ne_false h1, not_not.mp h2,
      Or.inr (Or.inl ⟨not_not.mp h3, h4, rfl⟩)⟩
  · exact Or.inr ⟨bool_ne_false h1, not_not.mp h2,
      Or.inr (Or.inr ⟨not_not.mp h3, bool_ne_false h4, rfl⟩)⟩

/-! ### The core invariant of a fill session -/

/-- Invariant of the engine state maintained by `initialize` and `step`:
the frontier holds exactly the `InQueue` pixels, without duplicates; every
non-`Unvisited` pixel is in bounds; `Boundary` pixels mismatch the target
value, `Unsafe` pixels fail the safety mask but match the target value;
the result grid holds exactly the `Processed` pixels; the mask only marks
target-valued pixels; and the counters count the `Processed` / `Unsafe`
pixels. -/
structure CoreInv (ff : FloodFill) : Prop where
  state_valid : ∀ x y, ff.state x y ≠ PixelState.Unvisited → ff.isValid x y = true
  frontier_state : ∀ p ∈ ff.frontier, ff.state p.1 p.2 = PixelState.InQueue
  inqueue_frontier : ∀ x y, ff.state x y = PixelState.InQueue → (x, y) ∈ ff.frontier
  nodup : ff.frontier.Nodup
  boundary_src : ∀ x y, ff.state x y = PixelState.Boundary →
    ff.source.get x y ≠ ff.target_value
  unsafe_mask : ∀ x y, ff.state x y = PixelState.Unsafe →
    ff.safety_mask.get x y = false ∧ ff.source.get x y = ff.target_value
  result_iff : ∀ x y, ff.result.get x y = true ↔ ff.state x y = PixelState.Processed
  result_dims : ff.result.width = ff.width ∧ ff.result.height = ff.height
  mask_src : ∀ x y, ff.safety_mask.get x y = true → ff.source.get x y = ff.target_value
  filled_eq : ff.filled_count = ((validSquare ff).filter
    (fun p => ff.state p.1 p.2 = PixelState.Processed)).card
  unsafe_eq : ff.unsafe_count = ((validSquare ff).filter
    (fun p => ff.state p.1 p.2 = PixelState.Unsafe)).card
  noinit_frontier : ff.initialized = false → ff.frontier = []

theorem coreInv_processNeighbor (ff : FloodFill) (x y : Int) (d : Int × Int)
    (hinit : ff.initialized = true) (hinv : CoreInv ff) :
    CoreInv (ff.processNeighbor x y d) := by
  rcases processNeighbor_spec ff x y d with ⟨heq, _⟩ | ⟨hvalid, hU, hbr⟩
  · rw [heq]
    exact hinv
  set nx := x + d.1 with hnx
  set ny := y + d.2 with hny
  have hnotfr : (nx, ny) ∉ ff.frontier := fun hmem => by
    have := hinv.frontier_state _ hmem
    rw [hU] at this
    exact PixelState.noConfusion this
  have hsq : (nx, ny) ∈ validSquare ff := by
    rw [mem_validSquare]
    exact (isValid_iff ff nx ny).mp hvalid
  have hUP : ff.state nx ny ≠ PixelState.Processed := by
    intro hcc
    rw [hU] at hcc
    exact PixelState.noConfusion hcc
  have hUU : ff.state nx ny ≠ PixelState.Unsafe := by
    intro hcc
    rw [hU] at hcc
    exact PixelState.noConfusion hcc
  rcases hbr with ⟨hsrc, heq⟩ | ⟨hsrc, hmask, heq⟩ | ⟨hsrc, hmask, heq⟩
  · -- Boundary write
    rw [heq]
    refine ⟨?_, ?_, ?_, ?_, ?_, ?_, ?_, hinv.result_dims, hinv.mask_src, ?_, ?_, ?_⟩
    · dsimp only
      intro a b hne
      by_cases hc : a = nx ∧ b = ny
      · rw [hc.1, hc.2]
        exact hvalid
      · exact hinv.state_valid a b (by rwa [updS_ne _ _ _ _ _ _ hc] at hne)
    · dsimp only
      intro p hp
      have hpne : ¬ (p.1 = nx ∧ p.2 = ny) := by
        rintro ⟨h1, h2⟩
        exact hnotfr (by rw [← h1, ← h2]; exact hp)
      rw [updS_ne _ _ _ _ _ _ hpne]
      exact hinv.frontier_state p hp
    · dsimp only
      intro a b hab
      by_cases hc : a = nx ∧ b = ny
      · rw [hc.1, hc.2, updS_self] at hab
        exact PixelState.noConfusion hab
      · rw [updS_ne _ _ _ _ _ _ hc] at hab
        exact hinv.inqueue_frontier a b hab
    · exact hinv.nodup
    · dsimp only
      intro a b hab
      by_cases hc : a = nx ∧ b = ny
      · rw [hc.1, hc.2]
        exact hsrc
      · rw [updS_ne _ _ _ _ _ _ hc] at hab
        exact hinv.boundary_src a b hab
    · dsimp only
      intro a b hab
      by_cases hc : a = nx ∧ b = ny
      · rw [hc.1, hc.2, updS_self] at hab
        exact PixelState.noConfusion hab
      · rw [updS_ne _ _ _ _ _ _ hc] at hab
        exact hinv.unsafe_mask a b hab
    · dsimp only
      intro a b
      rw [hinv.result_iff a b]
      by_cases hc : a = nx ∧ b = ny
      · rw [hc.1, hc.2, hU, updS_self]
        decide
      · rw [updS_ne _ _ _ _ _ _ hc]
    · dsimp only
      rw [hinv.filled_eq]
      exact (card_filter_updS_miss _ _ _ _ _ _ hUP (by decide)).symm
    · dsimp only
      rw [hinv.unsafe_eq]
      exact (card_filter_updS_miss _ _ _ _ _ _ hUU (by decide)).symm
    · exact fun h => hinv.noinit_frontier h
  · -- Unsafe write
    rw [heq]
    refine ⟨?_, ?_, ?_, ?_, ?_, ?_, ?_, hinv.result_dims, hinv.mask_src, ?_, ?_, ?_⟩
    · dsimp only
      intro a b hne
      by_cases hc : a = nx ∧ b = ny
      · rw [hc.1, hc.2]
        exact hvalid
      · exact hinv.state_valid a b (by rwa [updS_ne _ _ _ _ _ _ hc] at hne)
    · dsimp only
      intro p hp
      have hpne : ¬ (p.1 = nx ∧ p.2 = ny) := by
        rintro ⟨h1, h2⟩
        exact hnotfr (by rw [← h1, ← h2]; exact hp)
      rw [updS_ne _ _ _ _ _ _ hpne]
      exact hinv.frontier_state p hp
    · dsimp only
      intro a b hab
      by_cases hc : a = nx ∧ b = ny
      · rw [hc.1, hc.2, updS_self] at hab
        exact PixelState.noConfusion hab
      · rw [updS_ne _ _ _ _ _ _ hc] at hab
        exact hinv.inqueue_frontier a b hab
    · exact hinv.nodup
    · dsimp only
      intro a b hab
      by_cases hc : a = nx ∧ b = ny
      · rw [hc.1, hc.2, updS_self] at hab
        exact PixelState.noConfusion hab
      · rw [updS_ne _ _ _ _ _ _ hc] at hab
        exact hinv.boundary_src a b hab
    · dsimp only
      intro a b hab
      by_cases hc : a = nx ∧ b = ny
      · rw [hc.1, hc.2]
        exact ⟨hmask, hsrc⟩
      · rw [updS_ne _ _ _ _ _ _ hc] at hab
        exact hinv.unsafe_mask a b hab
    · dsimp only
      intro a b
      rw [hinv.result_iff a b]
      by_cases hc : a = nx ∧ b = ny
      · rw [hc.1, hc.2, hU, updS_self]
        decide
      · rw [updS_ne _ _ _ _ _ _ hc]
    · dsimp only
      rw [hinv.filled_eq]
      exact (card_filter_updS_miss _ _ _ _ _ _ hUP (by decide)).symm
    · dsimp only
      rw [hinv.unsafe_eq]
      exact (card_filter_updS_hit _ _ _ _ _ _ hsq hUU rfl).symm
    · exact fun h => hinv.noinit_frontier h
  · -- InQueue write (enqueue)
    rw [heq]
    refine ⟨?_, ?_, ?_, ?_, ?_, ?_, ?_, hinv.result_dims, hinv.mask_src, ?_, ?_, ?_⟩
    · dsimp only
      intro a b hne
      by_cases hc : a = nx ∧ b = ny
      · rw [hc.1, hc.2]
        exact hvalid
      · exact hinv.state_valid a b (by rwa [updS_ne _ _ _ _ _ _ hc] at hne)
    · dsimp only
      intro p hp
      rcases List.mem_append.mp hp with hp1 | hp2
      · have hpne : ¬ (p.1 = nx ∧ p.2 = ny) := by
          rintro ⟨h1, h2⟩
          exact hnotfr (by rw [← h1, ← h2]; exact hp1)
        rw [updS_ne _ _ _ _ _ _ hpne]
        exact hinv.frontier_state p hp1
      · have hp3 : p = (nx, ny) := by simpa using hp2
        rw [hp3]
        exact updS_self _ _ _ _
    · dsimp only
      intro a b hab
      by_cases hc : a = nx ∧ b = ny
      · apply List.mem_append_right
        rw [hc.1, hc.2]
        simp
      · rw [updS_ne _ _ _ _ _ _ hc] at hab
        exact List.mem_append_left _ (hinv.inqueue_frontier a b hab)
    · dsimp only
      rw [List.nodup_append]
      refine ⟨hinv.nodup, List.nodup_singleton _, ?_⟩
      intro p hp hp2
      have hp3 : p = (nx, ny) := by simpa using hp2
      exact hnotfr (hp3 ▸ hp)
    · dsimp only
      intro a b hab
      by_cases hc : a = nx ∧ b = ny
      · rw [hc.1, hc.2, updS_self] at hab
        exact PixelState.noConfusion hab
      · rw [updS_ne _ _ _ _ _ _ hc] at hab
        exact hinv.boundary_src a b hab
    · dsimp only
      intro a b hab
      by_cases hc : a = nx ∧ b = ny
      · rw [hc.1, hc.2, updS_self] at hab
        exact PixelState.noConfusion hab
      · rw [updS_ne _ _ _ _ _ _ hc] at hab
        exact hinv.unsafe_mask a b hab
    · dsimp only
      intro a b
      rw [hinv.result_iff a b]
      by_cases hc : a = nx ∧ b = ny
      · rw [hc.1, hc.2, hU, updS_self]
        decide
      · rw [updS_ne _ _ _ _ _ _ hc]
    · dsimp only
      rw [hinv.filled_eq]
      exact (card_filter_updS_miss _ _ _ _ _ _ hUP (by decide)).symm
    · dsimp only
      rw [hinv.unsafe_eq]
      exact (card_filter_updS_miss _ _ _ _ _ _ hUU (by decide)).symm
    · dsimp only
      intro h
      rw [h] at hinit
      exact Bool.noConfusion hinit

theorem coreInv_foldl (l : List (Int × Int)) (x y : Int) (acc : FloodFill)
    (hinit : acc.initialized = true) (hinv : CoreInv acc) :
    CoreInv (l.foldl (fun a d => a.processNeighbor x y d) acc) := by
  induction l generalizing acc with
  | nil => exact hinv
  | cons d l ih =>
      have h2 := coreInv_processNeighbor acc x y d hinit hinv
      have hinit2 : (acc.processNeighbor x y d).initialized = true := by
        rw [(processNeighbor_static acc x y d).2.2.2.2.2.2.2.2.1]
        exact hinit
      exact ih (acc.processNeighbor x y d) hinit2 h2

theorem coreInv_stepCore (ff : FloodFill) (f : Int × Int) (rest : List (Int × Int))
    (hinit : ff.initialized = true) (hf : ff.frontier = f :: rest) (hinv : CoreInv ff) :
    CoreInv (ff.stepCore f rest) := by
  unfold FloodFill.stepCore
  dsimp only
  have hmem : (popPixel ff.algorithm f rest).1 ∈ ff.frontier := by
    rw [hf]
    exact popPixel_mem ff.algorithm f rest
  have hnd : (f :: rest).Nodup := hf ▸ hinv.nodup
  obtain ⟨hnotin, hnd2, hiff⟩ := popPixel_parts ff.algorithm f rest hnd
  have hIQ : ff.state (popPixel ff.algorithm f rest).1.1 (popPixel ff.algorithm f rest).1.2 =
      PixelState.InQueue := hinv.frontier_state _ hmem
  have hval : ff.isValid (popPixel ff.algorithm f rest).1.1 (popPixel ff.algorithm f rest).1.2 =
      true := by
    apply hinv.state_valid
    rw [hIQ]
    decide
  set px := (popPixel ff.algorithm f rest).1.1 with hpx
  set py := (popPixel ff.algorithm f rest).1.2 with hpy
  have hpair : ((px, py) : Int × Int) = (popPixel ff.algorithm f rest).1 := rfl
  have hIQP : ff.state px py ≠ PixelState.Processed := by
    intro hcc
    rw [hIQ] at hcc
    exact PixelState.noConfusion hcc
  have hIQU : ff.state px py ≠ PixelState.Unsafe := by
    intro hcc
    rw [hIQ] at hcc
    exact PixelState.noConfusion hcc
  have hsq : ((px, py) : Int × Int) ∈ validSquare ff := by
    rw [mem_validSquare]
    exact (isValid_iff ff px py).mp hval
  have hbounds : 0 ≤ px ∧ px < ff.result.width ∧ 0 ≤ py ∧ py < ff.result.height := by
    rw [hinv.result_dims.1, hinv.result_dims.2]
    exact (isValid_iff ff px py).mp hval
  apply coreInv_foldl _ _ _ _ ?hinit2
  case hinit2 => exact hinit
  refine ⟨?_, ?_, ?_, hnd2, ?_, ?_, ?_, ?_, hinv.mask_src, ?_, ?_, ?_⟩
  · dsimp only
    intro a b hne
    by_cases hc : a = px ∧ b = py
    · rw [hc.1, hc.2]
      exact hval
    · exact hinv.state_valid a b (by rwa [updS_ne _ _ _ _ _ _ hc] at hne)
  · dsimp only
    intro p hp
    obtain ⟨hpf, hpne⟩ := (hiff p).mp hp
    have hc : ¬ (p.1 = px ∧ p.2 = py) := by
      rintro ⟨h1, h2⟩
      apply hpne
      rw [← hpair, ← h1, ← h2]
    rw [updS_ne _ _ _ _ _ _ hc]
    exact hinv.frontier_state p (hf ▸ hpf)
  · dsimp only
    intro a b hab
    by_cases hc : a = px ∧ b = py
    · rw [hc.1, hc.2, updS_self] at hab
      exact PixelState.noConfusion hab
    · rw [updS_ne _ _ _ _ _ _ hc] at hab
      apply (hiff (a, b)).mpr
      refine ⟨hf ▸ hinv.inqueue_frontier a b hab, ?_⟩
      intro hcc
      apply hc
      rw [← hpair] at hcc
      exact ⟨congrArg Prod.fst hcc, congrArg Prod.snd hcc⟩
  · dsimp only
    intro a b hab
    by_cases hc : a = px ∧ b = py
    · rw [hc.1, hc.2, updS_self] at hab
      exact PixelState.noConfusion hab
    · rw [updS_ne _ _ _ _ _ _ hc] at hab
      exact hinv.boundary_src a b hab
  · dsimp only
    intro a b hab
    by_cases hc : a = px ∧ b = py
    · rw [hc.1, hc.2, updS_self] at hab
      exact PixelState.noConfusion hab
    · rw [updS_ne _ _ _ _ _ _ hc] at hab
      exact hinv.unsafe_mask a b hab
  · dsimp only
    intro a b
    by_cases hc : a = px ∧ b = py
    · rw [hc.1, hc.2, get_set_self _ _ _ _ hbounds, updS_self]
      constructor
      · intro _
        rfl
      · intro _
        rfl
    · rw [get_set_ne _ _ _ _ _ _ hc, updS_ne _ _ _ _ _ _ hc]
      exact hinv.result_iff a b
  · exact hinv.result_dims
  · dsimp only
    rw [hinv.filled_eq]
    exact (card_filter_updS_hit _ _ _ _ _ _ hsq hIQP rfl).symm
  · dsimp only
    rw [hinv.unsafe_eq]
    exact (card_filter_updS_miss _ _ _ _ _ _ hIQU (by decide)).symm
  · dsimp only
    intro h
    rw [h] at hinit
    exact Bool.noConfusion hinit

theorem step_empty_frontier (ff : FloodFill) (hf : ff.frontier = []) :
    ff.step = (false, ff) := by
  unfold FloodFill.step
  rw [hf]
  split_ifs <;> rfl

theorem coreInv_step (ff : FloodFill) (hinv : CoreInv ff) : CoreInv (ff.step).2 := by
  cases hin : ff.initialized with
  | false =>
      rw [step_not_initialized ff hin]
      exact hinv
  | true =>
      cases hf : ff.frontier with
      | nil =>
          rw [step_empty_frontier ff hf]
          exact hinv
      | cons f rest =>
          rw [step_eq_core ff hin hf]
          exact coreInv_stepCore ff f rest hin hf hinv

theorem coreInv_runSteps (ff : FloodFill) (n : Nat) (hinv : CoreInv ff) :
    CoreInv (ff.runSteps n) := by
  induction n generalizing ff with
  | zero => exact hinv
  | succ n ih => exact ih (ff.step).2 (coreInv_step ff hinv)

theorem get_ofFill (w h : Int) (v : Bool) (x y : Int) :
    (BinaryImage.ofFill w h v).get x y = v ∨ (BinaryImage.ofFill w h v).get x y = false := by
  unfold BinaryImage.ofFill BinaryImage.get
  dsimp only
  split_ifs
  · exact Or.inl rfl
  · exact Or.inr rfl

theorem get_ofFill_false (w h : Int) (x y : Int) :
    (BinaryImage.ofFill w h false).get x y = false := by
  rcases get_ofFill w h false x y with h2 | h2 <;> exact h2

theorem precompute_get (ff : FloodFill) (x y : Int) :
    (ff.precomputeSafetyMask).get x y =
      if 0 ≤ x ∧ x < ff.width ∧ 0 ≤ y ∧ y < ff.height then
        (if ff.safety_radius ≤ 0 then ff.source.get x y == ff.target_value
         else (ff.source.get x y == ff.target_value) && ff.checkCircleFits x y)
      else false := rfl

theorem precompute_mask_src (ff : FloodFill) (x y : Int)
    (h : (ff.precomputeSafetyMask).get x y = true) :
    ff.source.get x y = ff.target_value := by
  rw [precompute_get] at h
  split_ifs at h with hb hr
  · exact beq_iff_eq.mp h
  · exact beq_iff_eq.mp ((Bool.and_eq_true _ _).mp h).1

theorem card_filter_of_false {s : Finset (Int × Int)} {p : Int × Int → Prop}
    [DecidablePred p] (h : ∀ q, ¬ p q) : (s.filter p).card = 0 := by
  rw [Finset.card_eq_zero, Finset.filter_eq_empty_iff]
  intro q _
  exact h q

/-- `initialize` from any starting engine establishes the core invariant,
provided the starting engine's safety mask marks nothing (as is the case
for a freshly constructed engine) or the seed is in bounds (in which case
the mask is recomputed). -/
theorem coreInv_initFill (c : Connectivity) (a : FillAlgorithm) (r : Int)
    (img : BinaryImage) (sx sy : Int) :
    CoreInv ((FloodFill.create c a r).initFill img sx sy) := by
  unfold FloodFill.initFill FloodFill.create
  dsimp only
  split_ifs with h1 h2
  -- invalid seed
  · refine ⟨?_, ?_, ?_, List.nodup_nil, ?_, ?_, ?_, ⟨rfl, rfl⟩, ?_, ?_, ?_, fun _ => rfl⟩
    · intro x y hne
      exact absurd rfl hne
    · intro p hp
      exact absurd hp (List.not_mem_nil p)
    · intro x y hab
      exact PixelState.noConfusion hab
    · intro x y hab
      exact PixelState.noConfusion hab
    · intro x y hab
      exact PixelState.noConfusion hab
    · intro x y
      rw [get_ofFill_false]
      constructor
      · intro hcc
        exact Bool.noConfusion hcc
      · intro hcc
        exact PixelState.noConfusion hcc
    · intro x y hmask
      rw [show (BinaryImage.ofFill 1 1 false).get x y = false from get_ofFill_false 1 1 x y]
        at hmask
      exact Bool.noConfusion hmask
    · rw [card_filter_of_false fun q => ?_]
      intro hcc
      exact PixelState.noConfusion hcc
    · rw [card_filter_of_false fun q => ?_]
      intro hcc
      exact PixelState.noConfusion hcc
  -- valid seed, unsafe start
  · refine ⟨?_, ?_, ?_, List.nodup_nil, ?_, ?_, ?_, ⟨rfl, rfl⟩,
      fun x y h => precompute_mask_src _ x y h, ?_, ?_, ?_⟩
    · dsimp only
      intro a b hne
      by_cases hc : a = sx ∧ b = sy
      · rw [hc.1, hc.2]
        exact bool_ne_false h1
      · rw [updS_ne _ _ _ _ _ _ hc] at hne
        exact absurd rfl hne
    · intro p hp
      exact absurd hp (List.not_mem_nil p)
    · dsimp only
      intro a b hab
      by_cases hc : a = sx ∧ b = sy
      · rw [hc.1, hc.2, updS_self] at hab
        exact PixelState.noConfusion hab
      · rw [updS_ne _ _ _ _ _ _ hc] at hab
        exact PixelState.noConfusion hab
    · dsimp only
      intro a b hab
      by_cases hc : a = sx ∧ b = sy
      · rw [hc.1, hc.2, updS_self] at hab
        exact PixelState.noConfusion hab
      · rw [updS_ne _ _ _ _ _ _ hc] at hab
        exact PixelState.noConfusion hab
    · dsimp only
      intro a b hab
      by_cases hc : a = sx ∧ b = sy
      · rw [hc.1, hc.2]
        exact ⟨h2, rfl⟩
      · rw [updS_ne _ _ _ _ _ _ hc] at hab
        exact PixelState.noConfusion hab
    · dsimp only
      intro a b
      rw [get_ofFill_false]
      constructor
      · intro hcc
        exact Bool.noConfusion hcc
      · intro hcc
        by_cases hc : a = sx ∧ b = sy
        · rw [hc.1, hc.2, updS_self] at hcc
          exact PixelState.noConfusion hcc
        · rw [updS_ne _ _ _ _ _ _ hc] at hcc
          exact PixelState.noConfusion hcc
    · dsimp only
      rw [card_filter_of_false fun q => ?_]
      intro hcc
      by_cases hc : q.1 = sx ∧ q.2 = sy
      · rw [hc.1, hc.2, updS_self] at hcc
        exact PixelState.noConfusion hcc
      · rw [updS_ne _ _ _ _ _ _ hc] at hcc
        exact PixelState.noConfusion hcc
    · dsimp only
      refine Eq.symm ((card_filter_updS_hit _ _ _ _ _ _ ?_ (by decide) rfl).trans ?_)
      · rw [mem_validSquare]
        exact (isValid_iff _ sx sy).mp (bool_ne_false h1)
      · rw [card_filter_of_false fun q => ?_]
        intro hcc
        exact PixelState.noConfusion hcc
    · intro hcc
      exact Bool.noConfusion hcc
  -- valid seed, safe start
  · refine ⟨?_, ?_, ?_, List.nodup_singleton _, ?_, ?_, ?_, ⟨rfl, rfl⟩,
      fun x y h => precompute_mask_src _ x y h, ?_, ?_, ?_⟩
    · dsimp only
      intro a b hne
      by_cases hc : a = sx ∧ b = sy
      · rw [hc.1, hc.2]
        exact bool_ne_false h1
      · rw [updS_ne _ _ _ _ _ _ hc] at hne
        exact absurd rfl hne
    · dsimp only
      intro p hp
      have hp2 : p = (sx, sy) := by simpa using hp
      rw [hp2]
      exact updS_self _ _ _ _
    · dsimp only
      intro a b hab
      by_cases hc : a = sx ∧ b = sy
      · rw [hc.1, hc.2]
        simp
      · rw [updS_ne _ _ _ _ _ _ hc] at hab
        exact PixelState.noConfusion hab
    · dsimp only
      intro a b hab
      by_cases hc : a = sx ∧ b = sy
      · rw [hc.1, hc.2, updS_self] at hab
        exact PixelState.noConfusion hab
      · rw [updS_ne _ _ _ _ _ _ hc] at hab
        exact PixelState.noConfusion hab
    · dsimp only
      intro a b hab
      by_cases hc : a = sx ∧ b = sy
      · rw [hc.1, hc.2, updS_self] at hab
        exact PixelState.noConfusion hab
      · rw [updS_ne _ _ _ _ _ _ hc] at hab
        exact PixelState.noConfusion hab
    · dsimp only
      intro a b
      rw [get_ofFill_false]
      constructor
      · intro hcc
        exact Bool.noConfusion hcc
      · intro hcc
        by_cases hc : a = sx ∧ b = sy
        · rw [hc.1, hc.2, updS_self] at hcc
          exact PixelState.noConfusion hcc
        · rw [updS_ne _ _ _ _ _ _ hc] at hcc
          exact PixelState.noConfusion hcc
    · dsimp only
      rw [card_filter_of_false fun q => ?_]
      intro hcc
      by_cases hc : q.1 = sx ∧ q.2 = sy
      · rw [hc.1, hc.2, updS_self] at hcc
        exact PixelState.noConfusion hcc
      · rw [updS_ne _ _ _ _ _ _ hc] at hcc
        exact PixelState.noConfusion hcc
    · dsimp only
      rw [card_filter_of_false fun q => ?_]
      intro hcc
      by_cases hc : q.1 = sx ∧ q.2 = sy
      · rw [hc.1, hc.2, updS_self] at hcc
        exact PixelState.noConfusion hcc
      · rw [updS_ne _ _ _ _ _ _ hc] at hcc
        exact PixelState.noConfusion hcc
    · intro hcc
      exact Bool.noConfusion hcc

/-! ### Per-pixel monotonicity of one step -/

theorem validSquare_congr {a b : FloodFill} (h : EqStatic a b) :
    validSquare a = validSquare b := by
  unfold validSquare
  rw [h.1, h.2.1]

theorem processNeighbor_state_R0 (ff : FloodFill) (x y : Int) (d : Int × Int) (a b : Int) :
    (ff.processNeighbor x y d).state a b = ff.state a b ∨
    (ff.state a b = PixelState.Unvisited ∧
      ((ff.processNeighbor x y d).state a b = PixelState.Boundary ∨
       (ff.processNeighbor x y d).state a b = PixelState.Unsafe ∨
       (ff.processNeighbor x y d).state a b = PixelState.InQueue)) := by
  rcases processNeighbor_spec ff x y d with ⟨heq, _⟩ | ⟨hvalid, hU, hbr⟩
  · rw [heq]
    exact Or.inl rfl
  rcases hbr with ⟨hsrc, heq⟩ | ⟨hsrc, hmask, heq⟩ | ⟨hsrc, hmask, heq⟩ <;>
    rw [heq] <;> dsimp only <;>
    (by_cases hc : a = x + d.1 ∧ b = y + d.2
     · rw [hc.1, hc.2, updS_self]
       rw [hc.1, hc.2] at *
       first
       | exact Or.inr ⟨hU, Or.inl rfl⟩
       | exact Or.inr ⟨hU, Or.inr (Or.inl rfl)⟩
       | exact Or.inr ⟨hU, Or.inr (Or.inr rfl)⟩
     · rw [updS_ne _ _ _ _ _ _ hc]
       exact Or.inl rfl)

theorem foldl_state_R0 (l : List (Int × Int)) (x y : Int) (acc : FloodFill) (a b : Int) :
    (l.foldl (fun q d => q.processNeighbor x y d) acc).state a b = acc.state a b ∨
    (acc.state a b = PixelState.Unvisited ∧
      ((l.foldl (fun q d => q.processNeighbor x y d) acc).state a b = PixelState.Boundary ∨
       (l.foldl (fun q d => q.processNeighbor x y d) acc).state a b = PixelState.Unsafe ∨
       (l.foldl (fun q d => q.processNeighbor x y d) acc).state a b = PixelState.InQueue)) := by
  induction l generalizing acc with
  | nil => exact Or.inl rfl
  | cons d l ih =>
      rw [List.foldl_cons]
      rcases ih (acc.processNeighbor x y d) with h1 | ⟨h1, h2⟩
      · rcases processNeighbor_state_R0 acc x y d a b with h3 | ⟨h3, h4⟩
        · exact Or.inl (h1.trans h3)
        · refine Or.inr ⟨h3, ?_⟩
          rw [h1]
          exact h4
      · rcases processNeighbor_state_R0 acc x y d a b with h3 | ⟨h3, h4⟩
        · rw [h3] at h1
          exact Or.inr ⟨h1, h2⟩
        · -- the intermediate value is Unvisited yet also Boundary/Unsafe/InQueue: impossible
          rcases h4 with h4 | h4 | h4 <;> rw [h4] at h1 <;> exact absurd h1 (by decide)

theorem foldl_state_keep (l : List (Int × Int)) (x y : Int) (acc : FloodFill) (a b : Int)
    (h : acc.state a b ≠ PixelState.Unvisited) :
    (l.foldl (fun q d => q.processNeighbor x y d) acc).state a b = acc.state a b := by
  rcases foldl_state_R0 l x y acc a b with h1 | ⟨h1, _⟩
  · exact h1
  · exact absurd h1 h

/-! ### Termination measure: in-bounds pixels not yet processed -/

/-- The number of in-bounds pixels whose state is not `Processed`. -/
def notProcessedCount (ff : FloodFill) : Nat :=
  ((validSquare ff).filter (fun p => ff.state p.1 p.2 ≠ PixelState.Processed)).card

theorem notProcessedCount_pos (ff : FloodFill) (hinv : CoreInv ff) (p : Int × Int)
    (hp : p ∈ ff.frontier) : 1 ≤ notProcessedCount ff := by
  have hIQ := hinv.frontier_state p hp
  have hval : ff.isValid p.1 p.2 = true := by
    apply hinv.state_valid
    rw [hIQ]
    decide
  have hmem : p ∈ (validSquare ff).filter
      (fun p => ff.state p.1 p.2 ≠ PixelState.Processed) := by
    refine Finset.mem_filter.mpr ⟨?_, ?_⟩
    · rw [mem_validSquare]
      exact (isValid_iff ff p.1 p.2).mp hval
    · rw [hIQ]
      decide
  exact Finset.card_pos.mpr ⟨p, hmem⟩

theorem stepCore_measure_lt (ff : FloodFill) (f : Int × Int) (rest : List (Int × Int))
    (hinv : CoreInv ff) (hf : ff.frontier = f :: rest) :
    notProcessedCount (ff.stepCore f rest) < notProcessedCount ff := by
  have hmem : (popPixel ff.algorithm f rest).1 ∈ ff.frontier := by
    rw [hf]
    exact popPixel_mem ff.algorithm f rest
  have hIQ := hinv.frontier_state _ hmem
  have hval : ff.isValid (popPixel ff.algorithm f rest).1.1
      (popPixel ff.algorithm f rest).1.2 = true := by
    apply hinv.state_valid
    rw [hIQ]
    decide
  set px := (popPixel ff.algorithm f rest).1.1 with hpx
  set py := (popPixel ff.algorithm f rest).1.2 with hpy
  have hsq : ((px, py) : Int × Int) ∈ validSquare ff := by
    rw [mem_validSquare]
    exact (isValid_iff ff px py).mp hval
  have hstatic : EqStatic (ff.stepCore f rest) ff := by
    unfold FloodFill.stepCore
    dsimp only
    exact eqStatic_trans (foldl_processNeighbor_static _ _ _ _)
      ⟨rfl, rfl, rfl, rfl, rfl, rfl, rfl, rfl, rfl, rfl, rfl⟩
  -- the popped pixel is Processed after the step
  have hpopP : (ff.stepCore f rest).state px py = PixelState.Processed := by
    unfold FloodFill.stepCore
    dsimp only
    rw [foldl_state_keep]
    · exact updS_self _ _ _ _
    · dsimp only
      rw [updS_self]
      decide
  -- any other pixel keeps `Processed`-status
  have hother : ∀ a b : Int, ¬ (a = px ∧ b = py) →
      ((ff.stepCore f rest).state a b = PixelState.Processed ↔
        ff.state a b = PixelState.Processed) := by
    intro a b hc
    unfold FloodFill.stepCore
    dsimp only
    constructor
    · intro h2
      rcases foldl_state_R0 ff.offsets px py _ a b with h3 | ⟨h3, _⟩
      · rw [h2] at h3
        have h4 : ff.state a b = PixelState.Processed := by
          rw [← updS_ne ff.state px py PixelState.Processed a b hc]
          exact h3.symm
        exact h4
      · dsimp only at h3
        rw [updS_ne _ _ _ _ _ _ hc] at h3
        rcases foldl_state_R0 ff.offsets px py _ a b with h5 | ⟨_, h5 | h5 | h5⟩
        · rw [h2] at h5
          rw [← updS_ne ff.state px py PixelState.Processed a b hc]
          exact h5.symm
        · rw [h2] at h5
          exact absurd h5 (by decide)
        · rw [h2] at h5
          exact absurd h5 (by decide)
        · rw [h2] at h5
          exact absurd h5 (by decide)
    · intro h2
      rw [foldl_state_keep]
      · dsimp only
        rw [updS_ne _ _ _ _ _ _ hc]
        exact h2
      · dsimp only
        rw [updS_ne _ _ _ _ _ _ hc, h2]
        decide
  have hsub : (validSquare (ff.stepCore f rest)).filter
      (fun p => (ff.stepCore f rest).state p.1 p.2 ≠ PixelState.Processed) ⊆
      ((validSquare ff).filter
        (fun p => ff.state p.1 p.2 ≠ PixelState.Processed)).erase (px, py) := by
    intro q hq
    obtain ⟨hq1, hq2⟩ := Finset.mem_filter.mp hq
    rw [validSquare_congr hstatic] at hq1
    rw [Finset.mem_erase]
    constructor
    · intro hqe
      apply hq2
      rw [hqe]
      exact hpopP
    · refine Finset.mem_filter.mpr ⟨hq1, ?_⟩
      intro hP
      by_cases hc : q.1 = px ∧ q.2 = py
      · apply hq2
        have hqe : q = (px, py) := Prod.ext hc.1 hc.2
        rw [hqe]
        exact hpopP
      · exact hq2 ((hother q.1 q.2 hc).mpr hP)
  have hpopmem : ((px, py) : Int × Int) ∈ (validSquare ff).filter
      (fun p => ff.state p.1 p.2 ≠ PixelState.Processed) := by
    refine Finset.mem_filter.mpr ⟨hsq, ?_⟩
    rw [hIQ]
    decide
  calc notProcessedCount (ff.stepCore f rest)
      ≤ (((validSquare ff).filter
          (fun p => ff.state p.1 p.2 ≠ PixelState.Processed)).erase (px, py)).card :=
        Finset.card_le_card hsub
    _ < ((validSquare ff).filter
          (fun p => ff.state p.1 p.2 ≠ PixelState.Processed)).card :=
        Finset.card_erase_lt_of_mem hpopmem
    _ = notProcessedCount ff := rfl

theorem runSteps_frozen (ff : FloodFill) (hf : ff.frontier = []) (n : Nat) :
    ff.runSteps n = ff := by
  induction n with
  | zero => rfl
  | succ n ih =>
      show (ff.step).2.runSteps n = ff
      rw [step_empty_frontier ff hf]
      exact ih

theorem frontier_empty_of_measure (k : Nat) : ∀ ff : FloodFill, CoreInv ff →
    notProcessedCount ff ≤ k → (ff.runSteps k).frontier = [] := by
  induction k with
  | zero =>
      intro ff hinv hk
      cases hf : ff.frontier with
      | nil => exact hf
      | cons f rest =>
          have := notProcessedCount_pos ff hinv f (by rw [hf]; exact List.mem_cons_self f rest)
          omega
  | succ k ih =>
      intro ff hinv hk
      cases hin : ff.initialized with
      | false =>
          have hf := hinv.noinit_frontier hin
          rw [runSteps_frozen ff hf]
          exact hf
      | true =>
          cases hf : ff.frontier with
          | nil =>
              rw [runSteps_frozen ff hf]
              exact hf
          | cons f rest =>
              show ((ff.step).2.runSteps k).frontier = []
              rw [step_eq_core ff hin hf]
              dsimp only
              apply ih _ (coreInv_stepCore ff f rest hin hf hinv)
              have := stepCore_measure_lt ff f rest hinv hf
              omega

theorem getState_of_valid (ff : FloodFill) (x y : Int) (h : ff.isValid x y = true) :
    ff.getState x y = ff.state x y := by
  unfold FloodFill.getState
  rw [if_pos h]

theorem notProcessedCount_le (ff : FloodFill) :
    notProcessedCount ff ≤ ff.width.toNat * ff.height.toNat := by
  unfold notProcessedCount
  calc ((validSquare ff).filter
        (fun p => ff.state p.1 p.2 ≠ PixelState.Processed)).card
      ≤ (validSquare ff).card := Finset.card_filter_le _ _
    _ = ff.width.toNat * ff.height.toNat := by
        unfold validSquare
        rw [Finset.card_product, Int.card_Ico, Int.card_Ico]
        simp

theorem initFill_width (ff : FloodFill) (img : BinaryImage) (sx sy : Int) :
    (ff.initFill img sx sy).width = img.width := by
  unfold FloodFill.initFill
  dsimp only
  split_ifs <;> rfl

theorem initFill_height (ff : FloodFill) (img : BinaryImage) (sx sy : Int) :
    (ff.initFill img sx sy).height = img.height := by
  unfold FloodFill.initFill
  dsimp only
  split_ifs <;> rfl

theorem initFill_initialized_of_valid (ff : FloodFill) (img : BinaryImage) (sx sy : Int)
    (h : 0 ≤ sx ∧ sx < img.width ∧ 0 ≤ sy ∧ sy < img.height) :
    (ff.initFill img sx sy).initialized = true := by
  unfold FloodFill.initFill
  dsimp only
  rw [if_neg (fun hcc => ((isValid_eq_false_iff _ sx sy).mp hcc) h)]
  split_ifs <;> rfl

/-- C7: throughout any fill session the frontier never contains duplicates
and every frontier entry is `InQueue` (so each coordinate is pushed at most
once); and after `width·height` `step()` calls following the `initialize`
the frontier is empty — hence at most `width·height` of those calls were
effective — further `step()` calls return `false`, and when the
`initialize` was successful (in-bounds seed) `isComplete()` is true. -/
theorem frontier_discipline_and_termination (c : Connectivity) (a : FillAlgorithm) (r : Int)
    (img : BinaryImage) (sx sy : Int) :
    (∀ n : Nat,
      (((FloodFill.create c a r).initFill img sx sy).runSteps n).frontier.Nodup ∧
      ∀ p ∈ (((FloodFill.create c a r).initFill img sx sy).runSteps n).frontier,
        (((FloodFill.create c a r).initFill img sx sy).runSteps n).getState p.1 p.2 =
          PixelState.InQueue) ∧
    ((((FloodFill.create c a r).initFill img sx sy).runSteps
        (img.width.toNat * img.height.toNat)).frontier = [] ∧
     ((0 ≤ sx ∧ sx < img.width ∧ 0 ≤ sy ∧ sy < img.height) →
       (((FloodFill.create c a r).initFill img sx sy).runSteps
         (img.width.toNat * img.height.toNat)).isComplete = true) ∧
     ((((FloodFill.create c a r).initFill img sx sy).runSteps
        (img.width.toNat * img.height.toNat)).step).1 = false) := by
  have hinv0 := coreInv_initFill c a r img sx sy
  have hempty : (((FloodFill.create c a r).initFill img sx sy).runSteps
      (img.width.toNat * img.height.toNat)).frontier = [] := by
    apply frontier_empty_of_measure _ _ hinv0
    calc notProcessedCount ((FloodFill.create c a r).initFill img sx sy)
        ≤ ((FloodFill.create c a r).initFill img sx sy).width.toNat *
          ((FloodFill.create c a r).initFill img sx sy).height.toNat :=
          notProcessedCount_le _
      _ = img.width.toNat * img.height.toNat := by
          rw [initFill_width, initFill_height]
  refine ⟨?_, hempty, ?_, ?_⟩
  · intro n
    have hinv := coreInv_runSteps _ n hinv0
    refine ⟨hinv.nodup, ?_⟩
    intro p hp
    have hIQ := hinv.frontier_state p hp
    rw [getState_of_valid]
    · exact hIQ
    · apply hinv.state_valid
      rw [hIQ]
      decide
  · intro hvalid
    unfold FloodFill.isComplete
    rw [hempty]
    have hinit : (((FloodFill.create c a r).initFill img sx sy).runSteps
        (img.width.toNat * img.height.toNat)).initialized = true := by
      rw [(runSteps_static _ _).2.2.2.2.2.2.2.2.1]
      exact initFill_initialized_of_valid _ img sx sy hvalid
    rw [hinit]
    rfl
  · rw [step_empty_frontier _ hempty]

/-- Witness for C7 on a concrete 2×2 all-foreground session. -/
theorem frontier_discipline_and_termination_witness :
    ((((FloodFill.create Connectivity.Four FillAlgorithm.BFS 0).initFill
        (BinaryImage.ofFill 2 2 true) 0 0).runSteps 1).frontier.Nodup) ∧
    ((0 : Int) ≤ 0 ∧ (0 : Int) < (BinaryImage.ofFill 2 2 true).width ∧
     (0 : Int) ≤ 0 ∧ (0 : Int) < (BinaryImage.ofFill 2 2 true).height) ∧
    ((((FloodFill.create Connectivity.Four FillAlgorithm.BFS 0).initFill
        (BinaryImage.ofFill 2 2 true) 0 0).runSteps
        ((BinaryImage.ofFill 2 2 true).width.toNat *
          (BinaryImage.ofFill 2 2 true).height.toNat)).isComplete = true) := by
  have h := frontier_discipline_and_termination Connectivity.Four FillAlgorithm.BFS 0
    (BinaryImage.ofFill 2 2 true) 0 0
  exact ⟨(h.1 1).1, by decide, h.2.2.1 (by decide)⟩

/-! ### C4: the per-pixel state machine -/

/-- The transitions the spec allows for one `step()`: stay put, leave
`Unvisited` for `InQueue`/`Boundary`/`Unsafe`, or move `InQueue` →
`Processed`. Since no transition re-enters `Unvisited`, a pixel leaves
`Unvisited` at most once, and `Processed`, `Boundary` and `Unsafe` are
terminal. -/
def TransOK (s t : PixelState) : Prop :=
  t = s ∨
  (s = PixelState.Unvisited ∧
    (t = PixelState.InQueue ∨ t = PixelState.Boundary ∨ t = PixelState.Unsafe)) ∨
  (s = PixelState.InQueue ∧ t = PixelState.Processed)

theorem isValid_congr {a b : FloodFill} (h : EqStatic a b) (x y : Int) :
    a.isValid x y = b.isValid x y := by
  unfold FloodFill.isValid
  rw [h.1, h.2.1]

theorem step_transOK (ff : FloodFill) (hinv : CoreInv ff) (a b : Int) :
    TransOK (ff.state a b) ((ff.step).2.state a b) := by
  cases hin : ff.initialized with
  | false =>
      rw [step_not_initialized ff hin]
      exact Or.inl rfl
  | true =>
      cases hf : ff.frontier with
      | nil =>
          rw [step_empty_frontier ff hf]
          exact Or.inl rfl
      | cons f rest =>
          rw [step_eq_core ff hin hf]
          dsimp only
          have hmem : (popPixel ff.algorithm f rest).1 ∈ ff.frontier := by
            rw [hf]
            exact popPixel_mem ff.algorithm f rest
          have hIQ := hinv.frontier_state _ hmem
          set px := (popPixel ff.algorithm f rest).1.1 with hpx
          set py := (popPixel ff.algorithm f rest).1.2 with hpy
          have hpopP : (ff.stepCore f rest).state px py = PixelState.Processed := by
            unfold FloodFill.stepCore
            dsimp only
            rw [foldl_state_keep]
            · exact updS_self _ _ _ _
            · dsimp only
              rw [updS_self]
              decide
          by_cases hc : a = px ∧ b = py
          · rw [hc.1, hc.2, hpopP, hIQ]
            exact Or.inr (Or.inr ⟨rfl, rfl⟩)
          · unfold FloodFill.stepCore
            dsimp only
            rcases foldl_state_R0 ff.offsets px py _ a b with h1 | ⟨h1, h2⟩
            · rw [h1]
              dsimp only
              rw [updS_ne _ _ _ _ _ _ hc]
              exact Or.inl rfl
            · dsimp only at h1
              rw [updS_ne _ _ _ _ _ _ hc] at h1
              rcases h2 with h2 | h2 | h2 <;> rw [h2, h1]
              · exact Or.inr (Or.inl ⟨rfl, Or.inr (Or.inl rfl)⟩)
              · exact Or.inr (Or.inl ⟨rfl, Or.inr (Or.inr rfl)⟩)
              · exact Or.inr (Or.inl ⟨rfl, Or.inl rfl⟩)

/-- C4: along any fill session (an `initialize` followed by `n` `step`
calls), the next `step` moves every pixel's observable state only along the
allowed transitions: `Unvisited → InQueue`, `InQueue → Processed`,
`Unvisited → Boundary`, `Unvisited → Unsafe`, or no change; in particular
`Processed`, `Boundary` and `Unsafe` pixels never change state again and
each pixel leaves `Unvisited` at most once. -/
theorem state_machine_transitions (c : Connectivity) (a : FillAlgorithm) (r : Int)
    (img : BinaryImage) (sx sy : Int) (n : Nat) (x y : Int) :
    TransOK ((((FloodFill.create c a r).initFill img sx sy).runSteps n).getState x y)
      (((((FloodFill.create c a r).initFill img sx sy).runSteps n).step).2.getState x y) := by
  have hinv := coreInv_runSteps _ n (coreInv_initFill c a r img sx sy)
  set ffn := ((FloodFill.create c a r).initFill img sx sy).runSteps n with hffn
  by_cases hval : ffn.isValid x y = true
  · rw [getState_of_valid _ _ _ hval, getState_of_valid]
    · exact step_transOK ffn hinv x y
    · rw [isValid_congr (step_static ffn)]
      exact hval
  · have hU1 : ffn.getState x y = PixelState.Unvisited := by
      unfold FloodFill.getState
      rw [if_neg hval]
    have hU2 : ((ffn.step).2).getState x y = PixelState.Unvisited := by
      unfold FloodFill.getState
      rw [if_neg]
      rw [isValid_congr (step_static ffn)]
      exact hval
    rw [hU1, hU2]
    exact Or.inl rfl

/-! ### C3: reachability, and the BFS/DFS-independent characterization -/

/-- One neighbor hop: `q` is `p` displaced by one of the offsets. -/
def AdjOff (offs : List (Int × Int)) (p q : Int × Int) : Prop :=
  ∃ d ∈ offs, q = (p.1 + d.1, p.2 + d.2)

/-- The pixels the fill can reach from the seed `s`: in-bounds, marked by
the safety mask, and connected to `s` through such pixels by the neighbor
offsets. This depends on the grid, the mask and the connectivity but not on
the traversal algorithm. -/
inductive Reach (offs : List (Int × Int)) (w h : Int) (mask : BinaryImage)
    (s : Int × Int) : (Int × Int) → Prop where
  | base : (0 ≤ s.1 ∧ s.1 < w ∧ 0 ≤ s.2 ∧ s.2 < h) → mask.get s.1 s.2 = true →
      Reach offs w h mask s s
  | step : ∀ p q, Reach offs w h mask s p → AdjOff offs p q →
      (0 ≤ q.1 ∧ q.1 < w ∧ 0 ≤ q.2 ∧ q.2 < h) → mask.get q.1 q.2 = true →
      Reach offs w h mask s q

theorem reach_props {offs : List (Int × Int)} {w h : Int} {mask : BinaryImage}
    {s p : Int × Int} (hr : Reach offs w h mask s p) :
    (0 ≤ p.1 ∧ p.1 < w ∧ 0 ≤ p.2 ∧ p.2 < h) ∧ mask.get p.1 p.2 = true := by
  cases hr with
  | base hb hm => exact ⟨hb, hm⟩
  | step p q _ _ hb hm => exact ⟨hb, hm⟩

/-- The static data an invariant session shares with `Reach`. -/
def HS (offs : List (Int × Int)) (w h : Int) (mask : BinaryImage) (src : BinaryImage)
    (tv : Bool) (ff : FloodFill) : Prop :=
  ff.offsets = offs ∧ ff.width = w ∧ ff.height = h ∧ ff.safety_mask = mask ∧
  ff.source = src ∧ ff.target_value = tv

theorem hs_step {offs : List (Int × Int)} {w h : Int} {mask src : BinaryImage} {tv : Bool}
    {ff : FloodFill} (hhs : HS offs w h mask src tv ff) :
    HS offs w h mask src tv (ff.step).2 := by
  obtain ⟨h1, h2, h3, h4, h5, h6⟩ := hhs
  have hst := step_static ff
  exact ⟨hst.2.2.2.2.2.1.trans h1, hst.1.trans h2, hst.2.1.trans h3,
    hst.2.2.2.2.1.trans h4, hst.2.2.1.trans h5, hst.2.2.2.1.trans h6⟩

/-- The seed-relative invariant: every `InQueue`/`Processed` pixel is
reachable, every neighbor of a `Processed` pixel has been examined, every
`Boundary`/`Unsafe` pixel is adjacent to a reachable pixel, and the seed
has been examined. All fields speak only about the state grid. -/
structure SeedInv (offs : List (Int × Int)) (w h : Int) (mask : BinaryImage)
    (s : Int × Int) (ff : FloodFill) : Prop where
  sound : ∀ x y, (ff.state x y = PixelState.InQueue ∨ ff.state x y = PixelState.Processed) →
    Reach offs w h mask s (x, y)
  procNbr : ∀ x y, ff.state x y = PixelState.Processed → ∀ d ∈ offs,
    (0 ≤ x + d.1 ∧ x + d.1 < w ∧ 0 ≤ y + d.2 ∧ y + d.2 < h) →
    ff.state (x + d.1) (y + d.2) ≠ PixelState.Unvisited
  marked : ∀ x y, (ff.state x y = PixelState.Boundary ∨ ff.state x y = PixelState.Unsafe) →
    ∃ q, Reach offs w h mask s q ∧ AdjOff offs q (x, y)
  seed_marked : ff.state s.1 s.2 ≠ PixelState.Unvisited

theorem seedInv_of_state_eq {offs : List (Int × Int)} {w h : Int} {mask : BinaryImage}
    {s : Int × Int} {a b : FloodFill} (hst : a.state = b.state)
    (hsi : SeedInv offs w h mask s a) : SeedInv offs w h mask s b := by
  refine ⟨?_, ?_, ?_, ?_⟩ <;> rw [← hst]
  · exact hsi.sound
  · exact hsi.procNbr
  · exact hsi.marked
  · exact hsi.seed_marked

theorem seedFold (offs : List (Int × Int)) (w h : Int) (mask : BinaryImage) (s : Int × Int)
    (px py : Int) (hreach : Reach offs w h mask s (px, py)) :
    ∀ (l : List (Int × Int)) (acc : FloodFill),
      (∀ d ∈ l, d ∈ offs) →
      acc.width = w → acc.height = h → acc.safety_mask = mask →
      (∀ x y, (acc.state x y = PixelState.InQueue ∨ acc.state x y = PixelState.Processed) →
        Reach offs w h mask s (x, y)) →
      (∀ x y, (acc.state x y = PixelState.Boundary ∨ acc.state x y = PixelState.Unsafe) →
        ∃ q, Reach offs w h mask s q ∧ AdjOff offs q (x, y)) →
      ((∀ x y, ((l.foldl (fun q d => q.processNeighbor px py d) acc).state x y =
          PixelState.InQueue ∨
         (l.foldl (fun q d => q.processNeighbor px py d) acc).state x y =
          PixelState.Processed) → Reach offs w h mask s (x, y)) ∧
       (∀ x y, ((l.foldl (fun q d => q.processNeighbor px py d) acc).state x y =
          PixelState.Boundary ∨
         (l.foldl (fun q d => q.processNeighbor px py d) acc).state x y =
          PixelState.Unsafe) → ∃ q, Reach offs w h mask s q ∧ AdjOff offs q (x, y)) ∧
       (∀ d ∈ l, (0 ≤ px + d.1 ∧ px + d.1 < w ∧ 0 ≤ py + d.2 ∧ py + d.2 < h) →
         (l.foldl (fun q d => q.processNeighbor px py d) acc).state (px + d.1) (py + d.2) ≠
           PixelState.Unvisited)) := by
  intro l
  induction l with
  | nil =>
      intro acc _ _ _ _ hA1 hA3
      exact ⟨hA1, hA3, fun d hd => absurd hd (List.not_mem_nil d)⟩
  | cons d l ih =>
      intro acc hl hw hh hm hA1 hA3
      have hd0 : d ∈ offs := hl d (List.mem_cons_self d l)
      have hst := processNeighbor_static acc px py d
      -- invariants for the examined accumulator
      have hw2 : (acc.processNeighbor px py d).width = w := hst.1.trans hw
      have hh2 : (acc.processNeighbor px py d).height = h := hst.2.1.trans hh
      have hm2 : (acc.processNeighbor px py d).safety_mask = mask :=
        hst.2.2.2.2.1.trans hm
      have hA1n : ∀ x y, ((acc.processNeighbor px py d).state x y = PixelState.InQueue ∨
          (acc.processNeighbor px py d).state x y = PixelState.Processed) →
          Reach offs w h mask s (x, y) := by
        intro x y hxy
        rcases processNeighbor_spec acc px py d with ⟨heq, _⟩ | ⟨hvalid, hU, hbr⟩
        · rw [heq] at hxy
          exact hA1 x y hxy
        · have hb : (0 ≤ px + d.1 ∧ px + d.1 < w ∧ 0 ≤ py + d.2 ∧ py + d.2 < h) := by
            have := (isValid_iff acc (px + d.1) (py + d.2)).mp hvalid
            rw [hw, hh] at this
            exact this
          rcases hbr with ⟨hsrc, heq⟩ | ⟨hsrc, hmask, heq⟩ | ⟨hsrc, hmask, heq⟩ <;>
            rw [heq] at hxy <;> dsimp only at hxy
          · by_cases hc : x = px + d.1 ∧ y = py + d.2
            · rw [hc.1, hc.2, updS_self] at hxy
              rcases hxy with hxy | hxy <;> exact absurd hxy (by decide)
            · rw [updS_ne _ _ _ _ _ _ hc] at hxy
              exact hA1 x y hxy
          · by_cases hc : x = px + d.1 ∧ y = py + d.2
            · rw [hc.1, hc.2, updS_self] at hxy
              rcases hxy with hxy | hxy <;> exact absurd hxy (by decide)
            · rw [updS_ne _ _ _ _ _ _ hc] at hxy
              exact hA1 x y hxy
          · by_cases hc : x = px + d.1 ∧ y = py + d.2
            · rw [hc.1, hc.2]
              refine Reach.step (px, py) (px + d.1, py + d.2) hreach ⟨d, hd0, rfl⟩ hb ?_
              rw [← hm]
              exact hmask
            · rw [updS_ne _ _ _ _ _ _ hc] at hxy
              exact hA1 x y hxy
      have hA3n : ∀ x y, ((acc.processNeighbor px py d).state x y = PixelState.Boundary ∨
          (acc.processNeighbor px py d).state x y = PixelState.Unsafe) →
          ∃ q, Reach offs w h mask s q ∧ AdjOff offs q (x, y) := by
        intro x y hxy
        rcases processNeighbor_spec acc px py d with ⟨heq, _⟩ | ⟨hvalid, hU, hbr⟩
        · rw [heq] at hxy
          exact hA3 x y hxy
        · rcases hbr with ⟨hsrc, heq⟩ | ⟨hsrc, hmask, heq⟩ | ⟨hsrc, hmask, heq⟩ <;>
            rw [heq] at hxy <;> dsimp only at hxy
          · by_cases hc : x = px + d.1 ∧ y = py + d.2
            · rw [hc.1, hc.2]
              exact ⟨(px, py), hreach, ⟨d, hd0, rfl⟩⟩
            · rw [updS_ne _ _ _ _ _ _ hc] at hxy
              exact hA3 x y hxy
          · by_cases hc : x = px + d.1 ∧ y = py + d.2
            · rw [hc.1, hc.2]
              exact ⟨(px, py), hreach, ⟨d, hd0, rfl⟩⟩
            · rw [updS_ne _ _ _ _ _ _ hc] at hxy
              exact hA3 x y hxy
          · by_cases hc : x = px + d.1 ∧ y = py + d.2
            · rw [hc.1, hc.2, updS_self] at hxy
              rcases hxy with hxy | hxy <;> exact absurd hxy (by decide)
            · rw [updS_ne _ _ _ _ _ _ hc] at hxy
              exact hA3 x y hxy
      obtain ⟨hB1, hB3, hmarks⟩ := ih (acc.processNeighbor px py d)
        (fun e he => hl e (List.mem_cons_of_mem d he)) hw2 hh2 hm2 hA1n hA3n
      rw [List.foldl_cons]
      refine ⟨hB1, hB3, ?_⟩
      intro e he hbnds
      rcases List.mem_cons.mp he with rfl | he2
      · -- the examined offset itself: non-Unvisited after its own examination
        have hmarked : (acc.processNeighbor px py e).state (px + e.1) (py + e.2) ≠
            PixelState.Unvisited := by
          rcases processNeighbor_spec acc px py e with ⟨heq, hskip⟩ | ⟨hvalid, hU, hbr⟩
          · rcases hskip with hskip | hskip
            · exfalso
              have : acc.isValid (px + e.1) (py + e.2) = true := by
                rw [isValid_iff, hw, hh]
                exact hbnds
              rw [this] at hskip
              exact Bool.noConfusion hskip
            · rw [heq]
              exact hskip
          · rcases hbr with ⟨hsrc, heq⟩ | ⟨hsrc, hmask, heq⟩ | ⟨hsrc, hmask, heq⟩ <;>
              rw [heq] <;> dsimp only <;> rw [updS_self] <;> decide
        rw [foldl_state_keep l px py _ _ _ hmarked]
        exact hmarked
      · exact hmarks e he2 hbnds

theorem seedInv_stepCore (offs : List (Int × Int)) (w h : Int) (mask src : BinaryImage)
    (tv : Bool) (s : Int × Int) (ff : FloodFill) (f : Int × Int) (rest : List (Int × Int))
    (hhs : HS offs w h mask src tv ff) (hcore : CoreInv ff)
    (hsi : SeedInv offs w h mask s ff) (hf : ff.frontier = f :: rest) :
    SeedInv offs w h mask s (ff.stepCore f rest) := by
  have hmem : (popPixel ff.algorithm f rest).1 ∈ ff.frontier := by
    rw [hf]
    exact popPixel_mem ff.algorithm f rest
  have hIQ := hcore.frontier_state _ hmem
  set px := (popPixel ff.algorithm f rest).1.1 with hpx
  set py := (popPixel ff.algorithm f rest).1.2 with hpy
  have hreach : Reach offs w h mask s (px, py) := hsi.sound px py (Or.inl hIQ)
  unfold FloodFill.stepCore
  dsimp only
  have hA1 : ∀ x y, ((updS ff.state px py PixelState.Processed) x y = PixelState.InQueue ∨
      (updS ff.state px py PixelState.Processed) x y = PixelState.Processed) →
      Reach offs w h mask s (x, y) := by
    intro x y hxy
    by_cases hc : x = px ∧ y = py
    · rw [hc.1, hc.2]
      exact hreach
    · rw [updS_ne _ _ _ _ _ _ hc] at hxy
      exact hsi.sound x y hxy
  have hA3 : ∀ x y, ((updS ff.state px py PixelState.Processed) x y = PixelState.Boundary ∨
      (updS ff.state px py PixelState.Processed) x y = PixelState.Unsafe) →
      ∃ q, Reach offs w h mask s q ∧ AdjOff offs q (x, y) := by
    intro x y hxy
    by_cases hc : x = px ∧ y = py
    · rw [hc.1, hc.2, updS_self] at hxy
      rcases hxy with hxy | hxy <;> exact absurd hxy (by decide)
    · rw [updS_ne _ _ _ _ _ _ hc] at hxy
      exact hsi.marked x y hxy
  obtain ⟨hB1, hB3, hmarks⟩ := seedFold offs w h mask s px py hreach ff.offsets
    { ff with
      frontier := (popPixel ff.algorithm f rest).2,
      current_pixel := (popPixel ff.algorithm f rest).1,
      state := updS ff.state px py PixelState.Processed,
      result := ff.result.set px py true,
      filled_count := ff.filled_count + 1 }
    (fun d hd => hhs.1 ▸ hd) hhs.2.1 hhs.2.2.1 hhs.2.2.2.1 hA1 hA3
  refine ⟨hB1, ?_, hB3, ?_⟩
  · -- processed pixels have all their in-bounds neighbors examined
    intro x y hP d hd hbnds
    by_cases hc : x = px ∧ y = py
    · have hd2 : d ∈ ff.offsets := by
        rw [hhs.1]
        exact hd
      have := hmarks d hd2
      rw [hc.1, hc.2]
      rw [hc.1, hc.2] at hbnds
      exact this hbnds
    · -- an already-processed pixel: its examined neighbors stay examined
      have hPold : ff.state x y = PixelState.Processed := by
        rcases foldl_state_R0 ff.offsets px py _ x y with h1 | ⟨h1, h2 | h2 | h2⟩
        · rw [hP] at h1
          dsimp only at h1
          rw [updS_ne _ _ _ _ _ _ hc] at h1
          exact h1.symm
        · rw [hP] at h2
          exact absurd h2 (by decide)
        · rw [hP] at h2
          exact absurd h2 (by decide)
        · rw [hP] at h2
          exact absurd h2 (by decide)
      have hnb := hsi.procNbr x y hPold d hd hbnds
      have hnb1 : (updS ff.state px py PixelState.Processed) (x + d.1) (y + d.2) ≠
          PixelState.Unvisited := by
        by_cases hc2 : x + d.1 = px ∧ y + d.2 = py
        · rw [hc2.1, hc2.2, updS_self]
          decide
        · rw [updS_ne _ _ _ _ _ _ hc2]
          exact hnb
      rw [foldl_state_keep ff.offsets px py _ _ _ hnb1]
      exact hnb1
  · -- the seed stays examined
    have hs1 : (updS ff.state px py PixelState.Processed) s.1 s.2 ≠
        PixelState.Unvisited := by
      by_cases hc : s.1 = px ∧ s.2 = py
      · rw [hc.1, hc.2, updS_self]
        decide
      · rw [updS_ne _ _ _ _ _ _ hc]
        exact hsi.seed_marked
    rw [foldl_state_keep ff.offsets px py _ _ _ hs1]
    exact hs1

theorem seedInv_step (offs : List (Int × Int)) (w h : Int) (mask src : BinaryImage)
    (tv : Bool) (s : Int × Int) (ff : FloodFill)
    (hhs : HS offs w h mask src tv ff) (hcore : CoreInv ff)
    (hsi : SeedInv offs w h mask s ff) :
    SeedInv offs w h mask s (ff.step).2 := by
  cases hin : ff.initialized with
  | false =>
      rw [step_not_initialized ff hin]
      exact hsi
  | true =>
      cases hf : ff.frontier with
      | nil =>
          rw [step_empty_frontier ff hf]
          exact hsi
      | cons f rest =>
          rw [step_eq_core ff hin hf]
          exact seedInv_stepCore offs w h mask src tv s ff f rest hhs hcore hsi hf

theorem seedInv_runSteps (offs : List (Int × Int)) (w h : Int) (mask src : BinaryImage)
    (tv : Bool) (s : Int × Int) (ff : FloodFill) (n : Nat)
    (hhs : HS offs w h mask src tv ff) (hcore : CoreInv ff)
    (hsi : SeedInv offs w h mask s ff) :
    SeedInv offs w h mask s (ff.runSteps n) := by
  induction n generalizing ff with
  | zero => exact hsi
  | succ n ih =>
      exact ih (ff.step).2 (hs_step hhs) (coreInv_step ff hcore)
        (seedInv_step offs w h mask src tv s ff hhs hcore hsi)

/-- At completion (empty frontier) the per-pixel states are exactly
characterized by reachability: `Processed` = reachable, `Boundary` =
value-mismatching neighbor of a reachable pixel, `Unsafe` = mask-failing
target-valued neighbor of a reachable pixel. None of this depends on the
traversal algorithm. -/
theorem final_char (offs : List (Int × Int)) (w h : Int) (mask src : BinaryImage)
    (tv : Bool) (s : Int × Int) (ff : FloodFill)
    (hhs : HS offs w h mask src tv ff) (hcore : CoreInv ff)
    (hsi : SeedInv offs w h mask s ff) (hempty : ff.frontier = []) :
    (∀ p : Int × Int, (ff.state p.1 p.2 = PixelState.Processed ↔
        Reach offs w h mask s p)) ∧
    (∀ p : Int × Int, (ff.state p.1 p.2 = PixelState.Boundary ↔
        ((0 ≤ p.1 ∧ p.1 < w ∧ 0 ≤ p.2 ∧ p.2 < h) ∧ src.get p.1 p.2 ≠ tv ∧
         ∃ q, Reach offs w h mask s q ∧ AdjOff offs q p))) ∧
    (∀ p : Int × Int, (ff.state p.1 p.2 = PixelState.Unsafe ↔
        ((0 ≤ p.1 ∧ p.1 < w ∧ 0 ≤ p.2 ∧ p.2 < h) ∧ src.get p.1 p.2 = tv ∧
         mask.get p.1 p.2 = false ∧ ∃ q, Reach offs w h mask s q ∧ AdjOff offs q p))) := by
  obtain ⟨hoffs, hw, hh, hm, hsrc, htv⟩ := hhs
  have hnotIQ : ∀ x y : Int, ff.state x y ≠ PixelState.InQueue := by
    intro x y hIQ
    have h2 := hcore.inqueue_frontier x y hIQ
    rw [hempty] at h2
    exact List.not_mem_nil _ h2
  -- elimination of the non-Processed possibilities at a mask-marked pixel
  have hPofMarked : ∀ x y : Int, ff.state x y ≠ PixelState.Unvisited →
      mask.get x y = true → ff.state x y = PixelState.Processed := by
    intro x y hne hmk
    cases hstate : ff.state x y with
    | Unvisited => exact absurd hstate hne
    | InQueue => exact absurd hstate (hnotIQ x y)
    | Processed => rfl
    | Boundary =>
        exfalso
        apply hcore.boundary_src x y hstate
        apply hcore.mask_src
        rw [hm]
        exact hmk
    | Unsafe =>
        exfalso
        have h6 := (hcore.unsafe_mask x y hstate).1
        rw [hm, hmk] at h6
        exact Bool.noConfusion h6
  have hPofReach : ∀ p : Int × Int, Reach offs w h mask s p →
      ff.state p.1 p.2 = PixelState.Processed := by
    intro p hr
    induction hr with
    | base hb hmk => exact hPofMarked s.1 s.2 hsi.seed_marked hmk
    | step p q hp hadj hb hmk ih =>
        obtain ⟨d, hd, rfl⟩ := hadj
        exact hPofMarked _ _ (hsi.procNbr p.1 p.2 ih d hd hb) hmk
  refine ⟨?_, ?_, ?_⟩
  · intro p
    constructor
    · intro hP
      exact hsi.sound p.1 p.2 (Or.inr hP)
    · exact hPofReach p
  · intro p
    constructor
    · intro hB
      have hv := hcore.state_valid p.1 p.2 (by rw [hB]; decide)
      rw [isValid_iff, hw, hh] at hv
      have hs2 := hcore.boundary_src p.1 p.2 hB
      rw [hsrc, htv] at hs2
      exact ⟨hv, hs2, hsi.marked p.1 p.2 (Or.inl hB)⟩
    · rintro ⟨hb, hne, q, hq, d, hd, hpq⟩
      have hqP := hPofReach q hq
      have hnbU : ff.state p.1 p.2 ≠ PixelState.Unvisited := by
        rw [hpq]
        exact hsi.procNbr q.1 q.2 hqP d hd (by rw [hpq] at hb; exact hb)
      cases hstate : ff.state p.1 p.2 with
      | Unvisited => exact absurd hstate hnbU
      | InQueue => exact absurd hstate (hnotIQ p.1 p.2)
      | Processed =>
          exfalso
          apply hne
          have hr := hsi.sound p.1 p.2 (Or.inr hstate)
          have hmk := (reach_props hr).2
          have := hcore.mask_src p.1 p.2 (by rw [hm]; exact hmk)
          rw [hsrc, htv] at this
          exact this
      | Boundary => rfl
      | Unsafe =>
          exfalso
          apply hne
          have h6 := (hcore.unsafe_mask p.1 p.2 hstate).2
          rw [hsrc, htv] at h6
          exact h6
  · intro p
    constructor
    · intro hU
      have hv := hcore.state_valid p.1 p.2 (by rw [hU]; decide)
      rw [isValid_iff, hw, hh] at hv
      have h6 := hcore.unsafe_mask p.1 p.2 hU
      rw [hm] at h6
      have h7 := h6.2
      rw [hsrc, htv] at h7
      exact ⟨hv, h7, h6.1, hsi.marked p.1 p.2 (Or.inr hU)⟩
    · rintro ⟨hb, heq, hmf, q, hq, d, hd, hpq⟩
      have hqP := hPofReach q hq
      have hnbU : ff.state p.1 p.2 ≠ PixelState.Unvisited := by
        rw [hpq]
        exact hsi.procNbr q.1 q.2 hqP d hd (by rw [hpq] at hb; exact hb)
      cases hstate : ff.state p.1 p.2 with
      | Unvisited => exact absurd hstate hnbU
      | InQueue => exact absurd hstate (hnotIQ p.1 p.2)
      | Processed =>
          exfalso
          have hr := hsi.sound p.1 p.2 (Or.inr hstate)
          have hmk := (reach_props hr).2
          rw [hmf] at hmk
          exact Bool.noConfusion hmk
      | Boundary =>
          exfalso
          have h6 := hcore.boundary_src p.1 p.2 hstate
          rw [hsrc, htv] at h6
          exact h6 heq
      | Unsafe => rfl

/-- `initialize` never reads the traversal algorithm: engines created with
the same connectivity and radius but different algorithms initialize to the
same state except for the `algorithm` field itself. -/
theorem initFill_alg_eq (c : Connectivity) (a1 a2 : FillAlgorithm) (r : Int)
    (img : BinaryImage) (sx sy : Int) :
    ((FloodFill.create c a1 r).initFill img sx sy) =
      { ((FloodFill.create c a2 r).initFill img sx sy) with algorithm := a1 } := by
  unfold FloodFill.create FloodFill.initFill FloodFill.precomputeSafetyMask
    FloodFill.checkCircleFits BinaryImage.get
  simp only [FloodFill.isValid]
  dsimp only
  split_ifs <;> rfl

theorem initFill_cases (ff : FloodFill) (img : BinaryImage) (sx sy : Int)
    (hv : 0 ≤ sx ∧ sx < img.width ∧ 0 ≤ sy ∧ sy < img.height) :
    ((ff.initFill img sx sy).safety_mask.get sx sy = false ∧
     (ff.initFill img sx sy).frontier = [] ∧
     (ff.initFill img sx sy).state =
       updS (fun _ _ => PixelState.Unvisited) sx sy PixelState.Unsafe) ∨
    ((ff.initFill img sx sy).safety_mask.get sx sy = true ∧
     (ff.initFill img sx sy).frontier = [(sx, sy)] ∧
     (ff.initFill img sx sy).state =
       updS (fun _ _ => PixelState.Unvisited) sx sy PixelState.InQueue) := by
  unfold FloodFill.initFill
  dsimp only
  rw [if_neg (fun hcc => ((isValid_eq_false_iff _ sx sy).mp hcc) hv)]
  split_ifs with h2
  · exact Or.inl ⟨h2, rfl, rfl⟩
  · exact Or.inr ⟨bool_ne_false h2, rfl, rfl⟩

theorem seedInv_initFill (ff : FloodFill) (img : BinaryImage) (sx sy : Int)
    (hv : 0 ≤ sx ∧ sx < img.width ∧ 0 ≤ sy ∧ sy < img.height)
    (hm : (ff.initFill img sx sy).safety_mask.get sx sy = true) :
    SeedInv (ff.initFill img sx sy).offsets img.width img.height
      (ff.initFill img sx sy).safety_mask (sx, sy) (ff.initFill img sx sy) := by
  rcases initFill_cases ff img sx sy hv with ⟨hmf, _, _⟩ | ⟨hmt, hfr, hst⟩
  · rw [hm] at hmf
    exact Bool.noConfusion hmf
  refine ⟨?_, ?_, ?_, ?_⟩
  · intro x y hxy
    rw [hst] at hxy
    by_cases hc : x = sx ∧ y = sy
    · rw [hc.1, hc.2]
      exact Reach.base hv hm
    · rw [updS_ne _ _ _ _ _ _ hc] at hxy
      rcases hxy with hxy | hxy <;> exact absurd hxy (by decide)
  · intro x y hxy
    rw [hst] at hxy
    by_cases hc : x = sx ∧ y = sy
    · rw [hc.1, hc.2, updS_self] at hxy
      exact absurd hxy (by decide)
    · rw [updS_ne _ _ _ _ _ _ hc] at hxy
      exact absurd hxy (by decide)
  · intro x y hxy
    rw [hst] at hxy
    by_cases hc : x = sx ∧ y = sy
    · rw [hc.1, hc.2, updS_self] at hxy
      rcases hxy with hxy | hxy <;> exact absurd hxy (by decide)
    · rw [updS_ne _ _ _ _ _ _ hc] at hxy
      rcases hxy with hxy | hxy <;> exact absurd hxy (by decide)
  · rw [hst]
    show updS (fun _ _ => PixelState.Unvisited) sx sy PixelState.InQueue sx sy ≠
      PixelState.Unvisited
    rw [updS_self]
    decide

theorem state_eq_of_char (s t : PixelState)
    (hP : (s = PixelState.Processed) ↔ (t = PixelState.Processed))
    (hBd : (s = PixelState.Boundary) ↔ (t = PixelState.Boundary))
    (hUn : (s = PixelState.Unsafe) ↔ (t = PixelState.Unsafe))
    (hsIQ : s ≠ PixelState.InQueue) (htIQ : t ≠ PixelState.InQueue) : s = t := by
  cases s <;> cases t <;> simp_all

theorem bool_eq_of_iff {a b : Bool} (h : a = true ↔ b = true) : a = b := by
  cases a <;> cases b <;> simp_all

theorem hs_runSteps {offs : List (Int × Int)} {w h : Int} {mask src : BinaryImage} {tv : Bool}
    {ff : FloodFill} (hhs : HS offs w h mask src tv ff) (n : Nat) :
    HS offs w h mask src tv (ff.runSteps n) := by
  induction n generalizing ff with
  | zero => exact hhs
  | succ n ih => exact ih (hs_step hhs)

theorem validSquare_eq {ff : FloodFill} {w h : Int} (hw : ff.width = w) (hh : ff.height = h) :
    validSquare ff = Finset.Ico 0 w ×ˢ Finset.Ico 0 h := by
  unfold validSquare
  rw [hw, hh]

/-- C3: over identical inputs (same image, seed, connectivity and safety
radius), running the fill to completion with BFS and with DFS yields the
same final per-pixel state grid, hence the same result grid and the same
`filled_count` and `unsafe_count`; only the processing order differs. -/
theorem bfs_dfs_same_partition (c : Connectivity) (r : Int) (img : BinaryImage)
    (sx sy : Int) (n m : Nat)
    (hB : (((FloodFill.create c FillAlgorithm.BFS r).initFill img sx sy).runSteps
      n).frontier = [])
    (hD : (((FloodFill.create c FillAlgorithm.DFS r).initFill img sx sy).runSteps
      m).frontier = []) :
    (∀ x y : Int,
      (((FloodFill.create c FillAlgorithm.BFS r).initFill img sx sy).runSteps
        n).getState x y =
      (((FloodFill.create c FillAlgorithm.DFS r).initFill img sx sy).runSteps
        m).getState x y) ∧
    (∀ x y : Int,
      (((FloodFill.create c FillAlgorithm.BFS r).initFill img sx sy).runSteps
        n).result.get x y =
      (((FloodFill.create c FillAlgorithm.DFS r).initFill img sx sy).runSteps
        m).result.get x y) ∧
    (((FloodFill.create c FillAlgorithm.BFS r).initFill img sx sy).runSteps
      n).filled_count =
      (((FloodFill.create c FillAlgorithm.DFS r).initFill img sx sy).runSteps
        m).filled_count ∧
    (((FloodFill.create c FillAlgorithm.BFS r).initFill img sx sy).runSteps
      n).unsafe_count =
      (((FloodFill.create c FillAlgorithm.DFS r).initFill img sx sy).runSteps
        m).unsafe_count := by
  have halg := initFill_alg_eq c FillAlgorithm.BFS FillAlgorithm.DFS r img sx sy
  set ffB0 := (FloodFill.create c FillAlgorithm.BFS r).initFill img sx sy with hffB0
  set ffD0 := (FloodFill.create c FillAlgorithm.DFS r).initFill img sx sy with hffD0
  have hstate0 : ffB0.state = ffD0.state := by rw [halg]
  have hfr0 : ffB0.frontier = ffD0.frontier := by rw [halg]
  have hmask0 : ffB0.safety_mask = ffD0.safety_mask := by rw [halg]
  have hsrc0 : ffB0.source = ffD0.source := by rw [halg]
  have htv0 : ffB0.target_value = ffD0.target_value := by rw [halg]
  have hres0 : ffB0.result = ffD0.result := by rw [halg]
  have hoffs0 : ffB0.offsets = ffD0.offsets := by rw [halg]
  have hfc0 : ffB0.filled_count = ffD0.filled_count := by rw [halg]
  have huc0 : ffB0.unsafe_count = ffD0.unsafe_count := by rw [halg]
  have hwB : ffB0.width = img.width := initFill_width _ _ _ _
  have hhB : ffB0.height = img.height := initFill_height _ _ _ _
  have hwD : ffD0.width = img.width := initFill_width _ _ _ _
  have hhD : ffD0.height = img.height := initFill_height _ _ _ _
  have main_frozen : ffB0.frontier = [] →
      ((∀ x y : Int, (ffB0.runSteps n).getState x y = (ffD0.runSteps m).getState x y) ∧
       (∀ x y : Int,
         (ffB0.runSteps n).result.get x y = (ffD0.runSteps m).result.get x y) ∧
       (ffB0.runSteps n).filled_count = (ffD0.runSteps m).filled_count ∧
       (ffB0.runSteps n).unsafe_count = (ffD0.runSteps m).unsafe_count) := by
    intro hf0
    have hfD0 : ffD0.frontier = [] := by
      rw [← hfr0]
      exact hf0
    rw [runSteps_frozen ffB0 hf0 n, runSteps_frozen ffD0 hfD0 m]
    refine ⟨?_, ?_, hfc0, huc0⟩
    · intro x y
      unfold FloodFill.getState FloodFill.isValid
      rw [hstate0, hwB, hhB, hwD, hhD]
    · intro x y
      rw [hres0]
  by_cases hval : (0 ≤ sx ∧ sx < img.width ∧ 0 ≤ sy ∧ sy < img.height)
  · rcases initFill_cases (FloodFill.create c FillAlgorithm.BFS r) img sx sy hval with
      ⟨hmf, hfrB, _⟩ | ⟨hmt, hfrB, _⟩
    · exact main_frozen hfrB
    · have hhsB : HS ffB0.offsets img.width img.height ffB0.safety_mask ffB0.source
          ffB0.target_value ffB0 := ⟨rfl, hwB, hhB, rfl, rfl, rfl⟩
      have hhsD : HS ffB0.offsets img.width img.height ffB0.safety_mask ffB0.source
          ffB0.target_value ffD0 :=
        ⟨hoffs0.symm, hwD, hhD, hmask0.symm, hsrc0.symm, htv0.symm⟩
      have hcore0B := coreInv_initFill c FillAlgorithm.BFS r img sx sy
      have hcore0D := coreInv_initFill c FillAlgorithm.DFS r img sx sy
      have hsiB0 :=
        seedInv_initFill (FloodFill.create c FillAlgorithm.BFS r) img sx sy hval hmt
      have hsiD0 : SeedInv ffB0.offsets img.width img.height ffB0.safety_mask (sx, sy)
          ffD0 := seedInv_of_state_eq hstate0 hsiB0
      have hcoreB := coreInv_runSteps ffB0 n hcore0B
      have hcoreD := coreInv_runSteps ffD0 m hcore0D
      have hhsBn := hs_runSteps hhsB n
      have hhsDm := hs_runSteps hhsD m
      have hsiBn := seedInv_runSteps _ _ _ _ _ _ (sx, sy) ffB0 n hhsB hcore0B hsiB0
      have hsiDm := seedInv_runSteps _ _ _ _ _ _ (sx, sy) ffD0 m hhsD hcore0D hsiD0
      obtain ⟨hPB, hBB, hUB⟩ := final_char _ _ _ _ _ _ (sx, sy) _ hhsBn hcoreB hsiBn hB
      obtain ⟨hPD, hBD, hUD⟩ := final_char _ _ _ _ _ _ (sx, sy) _ hhsDm hcoreD hsiDm hD
      have hnotIQB : ∀ x y : Int, (ffB0.runSteps n).state x y ≠ PixelState.InQueue := by
        intro x y hIQ
        have h2 := hcoreB.inqueue_frontier x y hIQ
        rw [hB] at h2
        exact List.not_mem_nil _ h2
      have hnotIQD : ∀ x y : Int, (ffD0.runSteps m).state x y ≠ PixelState.InQueue := by
        intro x y hIQ
        have h2 := hcoreD.inqueue_frontier x y hIQ
        rw [hD] at h2
        exact List.not_mem_nil _ h2
      have hstEq : ∀ x y : Int,
          (ffB0.runSteps n).state x y = (ffD0.runSteps m).state x y := by
        intro x y
        apply state_eq_of_char
        · exact (hPB (x, y)).trans (hPD (x, y)).symm
        · exact (hBB (x, y)).trans (hBD (x, y)).symm
        · exact (hUB (x, y)).trans (hUD (x, y)).symm
        · exact hnotIQB x y
        · exact hnotIQD x y
      refine ⟨?_, ?_, ?_, ?_⟩
      · intro x y
        unfold FloodFill.getState FloodFill.isValid
        rw [hstEq x y, hhsBn.2.1, hhsBn.2.2.1, hhsDm.2.1, hhsDm.2.2.1]
      · intro x y
        apply bool_eq_of_iff
        rw [hcoreB.result_iff x y, hcoreD.result_iff x y, hstEq x y]
      · rw [hcoreB.filled_eq, hcoreD.filled_eq,
          validSquare_eq hhsBn.2.1 hhsBn.2.2.1, validSquare_eq hhsDm.2.1 hhsDm.2.2.1]
        congr 1
        apply Finset.filter_congr
        intro p _
        rw [hstEq p.1 p.2]
      · rw [hcoreB.unsafe_eq, hcoreD.unsafe_eq,
          validSquare_eq hhsBn.2.1 hhsBn.2.2.1, validSquare_eq hhsDm.2.1 hhsDm.2.2.1]
        congr 1
        apply Finset.filter_congr
        intro p _
        rw [hstEq p.1 p.2]
  · apply main_frozen
    have hIB : ffB0.initialized = false :=
      initFill_invalid_seed _ img sx sy hval
    exact (coreInv_initFill c FillAlgorithm.BFS r img sx sy).noinit_frontier hIB

/-- Witness for C3: a 2×2 all-foreground grid, both runs completed after 4
steps. -/
theorem bfs_dfs_same_partition_witness :
    ((((FloodFill.create Connectivity.Four FillAlgorithm.BFS 0).initFill
        (BinaryImage.ofFill 2 2 true) 0 0).runSteps 4).frontier = []) ∧
    ((((FloodFill.create Connectivity.Four FillAlgorithm.DFS 0).initFill
        (BinaryImage.ofFill 2 2 true) 0 0).runSteps 4).frontier = []) ∧
    ((((FloodFill.create Connectivity.Four FillAlgorithm.BFS 0).initFill
        (BinaryImage.ofFill 2 2 true) 0 0).runSteps 4).filled_count =
     (((FloodFill.create Connectivity.Four FillAlgorithm.DFS 0).initFill
        (BinaryImage.ofFill 2 2 true) 0 0).runSteps 4).filled_count) ∧
    (∀ x y : Int,
      (((FloodFill.create Connectivity.Four FillAlgorithm.BFS 0).initFill
        (BinaryImage.ofFill 2 2 true) 0 0).runSteps 4).getState x y =
      (((FloodFill.create Connectivity.Four FillAlgorithm.DFS 0).initFill
        (BinaryImage.ofFill 2 2 true) 0 0).runSteps 4).getState x y) := by
  have h := bfs_dfs_same_partition Connectivity.Four 0 (BinaryImage.ofFill 2 2 true) 0 0 4 4
    (by decide) (by decide)
  exact ⟨by decide, by decide, h.2.2.1, h.1⟩

end EDM